import Mathlib

/-!
Verification development for the hierarchical configuration parser / differ
embedded in `lib/ansible/modules/network/nxos/nxos_acl.py` (the
`ConfigLine` / `parse` / `CustomNetworkConfig` engine, source lines 256-611).

Modelling conventions (shallow embedding of the Python object graph):

* Python `ConfigLine` objects live in the single owning list
  `CustomNetworkConfig._config` (`self.items`); objects are referenced by
  their position in that list (nodes are only ever appended, so positions
  are stable).  A node's `parents` / `children` hold positions into that
  arena, exactly mirroring Python's mutable object references: mutating a
  node through one reference is visible through every other reference.
* Python's `ConfigLine.__eq__` recurses through the `parents` lists; the
  recursion is modelled with explicit fuel (`cfgEqF`).  On every
  reference-closed arena (all positions in range, which every Python heap
  satisfies) the recursion depth is bounded by the arena size, so the fuel
  chosen at each call site is sufficient.
* `collections.OrderedDict` (used by `expand`/`flatten`) is modelled as an
  insertion-ordered association list (`RawTrie`).
* `re.compile(r, re.I).search` on caller-supplied patterns is modelled by an
  abstract predicate `String → Bool`; the pattern `'^'+text+'$'` built for a
  literal `text` argument is modelled by case-insensitive string equality
  (`litPattern`), which is exact for metacharacter-free texts.
-/

/-- Python `str.strip()`: drop leading and trailing whitespace. -/
def strTrim (s : String) : String :=
  String.mk (((s.toList.dropWhile Char.isWhitespace).reverse.dropWhile
    Char.isWhitespace).reverse)

/-- Python `str.startswith(tok)`. -/
def pyStartsWith (s tok : String) : Bool :=
  tok.toList.isPrefixOf s.toList

/-- Python `str.lower()` (ASCII case folding, as used by `re.I` here). -/
def pyLower (s : String) : String :=
  String.mk (s.toList.map Char.toLower)

/-- Split a character list at every occurrence of `c` (Python
`str.split(c)`: the result always has one more piece than separators). -/
def splitChar (c : Char) : List Char → List (List Char)
  | [] => [[]]
  | x :: xs =>
      let r := splitChar c xs
      if x == c then [] :: r else (x :: r.headD []) :: r.tail

/-- Python `str.split('\n')`. -/
def splitLines (s : String) : List String :=
  (splitChar (Char.ofNat 10) s.toList).map String.mk

/-- Structural characters stripped by `parse` (`re.sub(r'([{};])', '', line)`):
the two braces and the semicolon. -/
def stripChars : List Char := [Char.ofNat 123, Char.ofNat 125, ';']

/-- `DEFAULT_COMMENT_TOKENS = ['#', '!']` (source line 256). -/
def DEFAULT_COMMENT_TOKENS : List String := ["#", "!"]

/-- One configuration statement (`class ConfigLine`, source lines 258-281).
`parents` and `children` are positions into the owning node list. -/
structure ConfigLine where
  text : String
  raw : String
  parents : List Nat
  children : List Nat
deriving DecidableEq, Repr, Inhabited

/-- `ignore_line(text, tokens)` (source lines 283-286).  Python's
`tokens or DEFAULT_COMMENT_TOKENS` falls back to the default both for `None`
and for an empty list. -/
def ignoreLine (text : String) (tokens : Option (List String)) : Bool :=
  (match tokens with
   | some (t :: ts) => t :: ts
   | _ => DEFAULT_COMMENT_TOKENS).any (fun tok => pyStartsWith text tok)

/-- The normalized statement text of a raw line:
`str(re.sub(r'([{};])', '', line)).strip()` (source line 301). -/
def normText (line : String) : String :=
  strTrim (String.mk (line.toList.filter (fun c => !(stripChars.contains c))))

/-- `toplevel = re.compile(r'\S'); toplevel.match(line)` (source lines 294, 310):
true iff the line's first character exists and is not whitespace. -/
def topLevelLine (line : String) : Bool :=
  match line.toList with
  | [] => false
  | c :: _ => !c.isWhitespace

/-- `match.start(1)` for `childline = re.compile(r'^\s*(.+)$')` (source lines
295, 315-316): the number of leading whitespace characters. -/
def leadingWS (line : String) : Nat :=
  (line.toList.takeWhile Char.isWhitespace).length

/-- Replace the node at position `i`, leaving the list unchanged when `i` is
out of range (Python can only reach in-range positions). -/
def modifyAt (l : List ConfigLine) (i : Nat) (f : ConfigLine → ConfigLine) :
    List ConfigLine :=
  l.set i (f (l.getD i default))

/-- The node at position `i` of the arena (`default` is unreachable for the
positions Python manipulates, which always exist). -/
def nthNode (nodes : List ConfigLine) (i : Nat) : ConfigLine :=
  nodes.getD i default

/-- The loop state of `parse` (source lines 297-298): the ancestor stack and
the output node list, both as arena positions / arena. -/
structure ParseState where
  ancestors : List Nat
  nodes : List ConfigLine
deriving DecidableEq, Repr

/-- One iteration of the `for line in str(lines).split('\n')` loop of `parse`
(source lines 300-332).  The appended node gets position `st.nodes.length`.
In the wiring branch, Python's `ancestors[parent_level]` with
`parent_level = level - 1` uses index `-1` (the just-pushed node itself) when
`level = 0`. -/
def parseStep (indent : Nat) (ct : Option (List String)) (st : ParseState)
    (line : String) : ParseState :=
  let text := normText line
  if text == "" || ignoreLine text ct then st
  else
    let idx := st.nodes.length
    if topLevelLine line then
      ⟨[idx], st.nodes ++ [⟨text, line, [], []⟩]⟩
    else
      let level := leadingWS line / indent
      let parentsIdx := st.ancestors.take level
      if st.ancestors.length < level then
        -- `level > len(ancestors)`: appended with no child wiring
        ⟨st.ancestors, st.nodes ++ [⟨text, line, parentsIdx, []⟩]⟩
      else
        let newAnc := st.ancestors.take level ++ [idx]
        let parentIdx := if level == 0 then idx else st.ancestors.getD (level - 1) 0
        ⟨newAnc,
         modifyAt (st.nodes ++ [⟨text, line, parentsIdx, []⟩]) parentIdx
           (fun n => { n with children := n.children ++ [idx] })⟩

/-- `parse(lines, indent, comment_tokens)` (source lines 293-334). -/
def parse (lines : String) (indent : Nat) (ct : Option (List String)) :
    List ConfigLine :=
  ((splitLines lines).foldl (parseStep indent ct) ⟨[], []⟩).nodes

/-- `class CustomNetworkConfig` state (source lines 337-345): `indent`
(`indent or 1`, so ≥ 1 in practice), the owned node list `_config`
(`self.items`), and `_device_os`. -/
structure CustomNetworkConfig where
  indent : Nat
  nodes : List ConfigLine
  device_os : Option String
deriving DecidableEq, Repr

/-- `[p.text for p in item.parents]` — the parent-text-chain of a node,
resolved through the owning arena. -/
def parentTexts (nodes : List ConfigLine) (item : ConfigLine) : List String :=
  item.parents.map (fun p => (nthNode nodes p).text)

/-- The lookup condition shared by `get` (source lines 378-382) and
`get_object` (source lines 470-474) for a list path: the node's text equals
the last path element and its parent-text-chain equals the other elements. -/
def matchQ (nodes : List ConfigLine) (path : List String) (item : ConfigLine) :
    Bool :=
  item.text == path.getLastD "" && parentTexts nodes item == path.dropLast

/-- First-match scan over the node list, returning the matching position. -/
def getObjectGo (nodes : List ConfigLine) (path : List String) :
    Nat → List ConfigLine → Option Nat
  | _, [] => none
  | i, item :: rest =>
      if matchQ nodes path item then some i else getObjectGo nodes path (i + 1) rest

/-- `get_object(path)` for a `path` that is a Python list (source lines
469-474); also the body of `get` after its string wrapping. -/
def getObjectL (cfg : CustomNetworkConfig) (path : List String) : Option Nat :=
  getObjectGo cfg.nodes path 0 cfg.nodes

/-- A Python path argument: either a bare string or a list of strings. -/
inductive PyPath where
  | str (s : String)
  | list (l : List String)
deriving DecidableEq, Repr

/-- `get(path)` (source lines 375-382): wraps a bare string into a one-element
list, then runs the same scan as `get_object`. -/
def getP (cfg : CustomNetworkConfig) : PyPath → Option Nat
  | .str s => getObjectL cfg [s]
  | .list l => getObjectL cfg l

/-- Python's `==` between a list and a string: always `False`
(cross-type comparison never succeeds). -/
def listEqStrPy (_ : List String) (_ : String) : Bool := false

/-- Python `s[-1]` for a nonempty string, as a 1-character string.
(For the empty string Python raises IndexError; callers below only use
nonempty strings.) -/
def lastCharStr (s : String) : String :=
  String.mk (s.toList.drop (s.toList.length - 1))

/-- `get_object(path)` over either path shape (source lines 469-474).  There
is no string wrapping: for a bare string `path`, `path[-1]` is the last
character and `path[:-1]` the string without it, and the comparison
`parents == path[:-1]` compares a list against a string, which is always
`False` in Python. -/
def getObjectP (cfg : CustomNetworkConfig) : PyPath → Option Nat
  | .str s =>
      (getObjectGo' cfg.nodes s 0 cfg.nodes)
  | .list l => getObjectL cfg l
where
  /-- the scan of `get_object` specialised to a bare string path -/
  getObjectGo' (nodes : List ConfigLine) (s : String) :
      Nat → List ConfigLine → Option Nat
  | _, [] => none
  | i, item :: rest =>
      if item.text == lastCharStr s &&
          listEqStrPy (parentTexts nodes item) (String.mk (s.toList.dropLast)) then
        some i
      else getObjectGo' nodes s (i + 1) rest

/-- `get_children(path)` (source lines 476-479): the children of the node
found by `get_object`, or the not-found signal. -/
def getChildrenP (cfg : CustomNetworkConfig) (path : PyPath) :
    Option (List Nat) :=
  (getObjectP cfg path).map (fun i => (nthNode cfg.nodes i).children)

/-- `ConfigLine.__eq__` (source lines 276-279): texts equal and the `parents`
lists equal, where list equality recurses into `__eq__` elementwise.  (When
the texts differ Python returns `None`, which is falsy.)  The recursion
through the object graph is modelled with fuel; on reference-closed arenas
the depth is bounded by the arena size, so the call-site fuel
`na.length + nb.length + 1` never runs out. -/
def cfgEqF : Nat → List ConfigLine → ConfigLine → List ConfigLine →
    ConfigLine → Bool
  | 0, _, _, _, _ => false
  | fuel + 1, na, a, nb, b =>
      a.text == b.text && a.parents.length == b.parents.length &&
        (a.parents.zip b.parents).all (fun pq =>
          cfgEqF fuel na (nthNode na pq.1) nb (nthNode nb pq.2))

/-- `a == b` for a node `a` owned by arena `na` and `b` owned by `nb`. -/
def cfgEqNodes (na : List ConfigLine) (a : ConfigLine) (nb : List ConfigLine)
    (b : ConfigLine) : Bool :=
  cfgEqF (na.length + nb.length + 1) na a nb b

/-- `expand_section(configobj, S)` (source lines 451-459): pre-order
collection of a node and its descendants; a child is skipped when a node
equal to it (by `__eq__`) is already in `S`.  Python's recursion terminates
through that membership check; the fuel (arena size + 1 at the call site)
bounds the same recursion. -/
def expandSection (cfg : CustomNetworkConfig) :
    Nat → Nat → List Nat → List Nat
  | 0, _, S => S
  | fuel + 1, i, S =>
      (nthNode cfg.nodes i).children.foldl
        (fun acc c =>
          if acc.any (fun j =>
              cfgEqNodes cfg.nodes (nthNode cfg.nodes j) cfg.nodes
                (nthNode cfg.nodes c)) then
            acc
          else expandSection cfg fuel c acc)
        (S ++ [i])

/-- `get_section_objects(path)` (source lines 443-449): wraps a non-list path
into a one-element list, raises `ValueError` when `get_object` finds nothing,
otherwise expands the section. -/
def getSectionObjects (cfg : CustomNetworkConfig) (path : PyPath) :
    Except String (List Nat) :=
  let pl := match path with | .str s => [s] | .list l => l
  match getObjectL cfg pl with
  | none => .error "path does not exist in config"
  | some i => .ok (expandSection cfg (cfg.nodes.length + 1) i [])

/-- Join a list of strings with newlines (`'\n'.join(...)`). -/
def joinNL : List String → String
  | [] => ""
  | [s] => s
  | s :: rest => s ++ String.mk [Char.ofNat 10] ++ joinNL rest

/-- `to_block(section)` (source lines 431-432). -/
def toBlock (cfg : CustomNetworkConfig) (section_ : List Nat) : String :=
  joinNL (section_.map (fun i => (nthNode cfg.nodes i).raw))

/-- Join with single spaces (`' '.join(...)`). -/
def joinSpace : List String → String
  | [] => ""
  | [s] => s
  | s :: rest => s ++ " " ++ joinSpace rest

/-- `to_lines(section)` (source lines 422-429): every node after the section
root rendered as `set <ancestor texts> <text>`. -/
def toLines (cfg : CustomNetworkConfig) (section_ : List Nat) : List String :=
  (section_.drop 1).map (fun i =>
    let item := nthNode cfg.nodes i
    joinSpace ("set" :: parentTexts cfg.nodes item ++ [item.text]))

/-- The value returned by `get_section`: a block string on the normal path, a
list of strings on the junos path — and the *empty list* (`return list()`)
when `get_section_objects` raised. -/
inductive SectionOut where
  | blockOut (s : String)
  | linesOut (ls : List String)
deriving DecidableEq, Repr

/-- `get_section(path)` (source lines 434-441): renders the expanded section,
but *catches* the `ValueError` of `get_section_objects` and returns an empty
list instead of propagating the failure. -/
def getSection (cfg : CustomNetworkConfig) (path : PyPath) : SectionOut :=
  match getSectionObjects cfg path with
  | .error _ => .linesOut []
  | .ok sec =>
      if cfg.device_os == some "junos" then .linesOut (toLines cfg sec)
      else .blockOut (toBlock cfg sec)

/-- The wrapping `get_section_objects` applies to its path before calling
`get_object` (source lines 444-445). -/
def wrapPath : PyPath → List String
  | .str s => [s]
  | .list l => l

/-- C1 (amended): for every path that resolves to no node,
`get_section_objects` raises `ValueError('path does not exist in config')`,
but `get_section` catches that error and silently returns the empty list
instead of surfacing the failure. -/
theorem getSectionObjects_fails_getSection_swallows
    (cfg : CustomNetworkConfig) (p : PyPath)
    (h : getObjectL cfg (wrapPath p) = none) :
    getSectionObjects cfg p = .error "path does not exist in config" ∧
    getSection cfg p = .linesOut [] := by
  have he : getSectionObjects cfg p = .error "path does not exist in config" := by
    unfold getSectionObjects
    cases p <;> simp_all [wrapPath]
  refine ⟨he, ?_⟩
  unfold getSection
  rw [he]

/-- C1 witness: a concrete unresolvable path on the empty tree. -/
theorem getSectionObjects_fails_getSection_swallows_witness :
    getObjectL ⟨1, [], none⟩ (wrapPath (.list ["x"])) = none ∧
    (getSectionObjects ⟨1, [], none⟩ (.list ["x"]) =
        .error "path does not exist in config" ∧
      getSection ⟨1, [], none⟩ (.list ["x"]) = .linesOut []) :=
  ⟨rfl, getSectionObjects_fails_getSection_swallows ⟨1, [], none⟩ (.list ["x"]) rfl⟩

/-- C1 counterexample: on the empty tree, the path `["x"]` resolves to no
node, yet `get_section` returns the empty list — it does *not* surface the
`PathNotFound` failure that `get_section_objects` raises. -/
theorem getSection_defaults_to_empty_counterexample :
    getObjectL ⟨1, [], none⟩ ["x"] = none ∧
    getSection ⟨1, [], none⟩ (.list ["x"]) = .linesOut [] :=
  ⟨rfl, rfl⟩

/-- C9: parsing the two-line example with indent 2 yields exactly the
top-level node (empty parents, the child as its only child) and the child
node (parents = the top-level node's position); the trailing empty line
yields no node. -/
theorem parse_two_line_example :
    parse "ip access-list ANSIBLE\n  10 permit tcp 1.1.1.1/24 any\n" 2 none =
      [⟨"ip access-list ANSIBLE", "ip access-list ANSIBLE", [], [1]⟩,
       ⟨"10 permit tcp 1.1.1.1/24 any", "  10 permit tcp 1.1.1.1/24 any",
        [0], []⟩] := by
  decide

/-- C2 (amended): a child line whose computed nesting level exceeds the
current ancestor-stack depth is appended to the output node list without any
child wiring, but its `parents` field is set to `ancestors[:level]` — the
*entire current ancestor stack* (not necessarily empty); the ancestor stack
and every existing node are left unchanged, and the step is total (no
crash). -/
theorem parseStep_deep_orphan (indent : Nat) (ct : Option (List String))
    (st : ParseState) (line : String)
    (h1 : (normText line == "") = false)
    (h2 : ignoreLine (normText line) ct = false)
    (h3 : topLevelLine line = false)
    (h4 : st.ancestors.length < leadingWS line / indent) :
    parseStep indent ct st line =
      ⟨st.ancestors, st.nodes ++ [⟨normText line, line, st.ancestors, []⟩]⟩ := by
  have htake : st.ancestors.take (leadingWS line / indent) = st.ancestors :=
    List.take_of_length_le (Nat.le_of_lt h4)
  simp [parseStep, h1, h2, h3, h4, htake]

/-- C2 witness: the line `"    b"` (level 2) under a one-deep ancestor
stack. -/
theorem parseStep_deep_orphan_witness :
    ((normText "    b" == "") = false ∧
      ignoreLine (normText "    b") none = false ∧
      topLevelLine "    b" = false ∧
      (ParseState.mk [0] [⟨"a", "a", [], []⟩]).ancestors.length <
        leadingWS "    b" / 2) ∧
    parseStep 2 none ⟨[0], [⟨"a", "a", [], []⟩]⟩ "    b" =
      ⟨(ParseState.mk [0] [⟨"a", "a", [], []⟩]).ancestors,
       (ParseState.mk [0] [⟨"a", "a", [], []⟩]).nodes ++
         [⟨normText "    b", "    b",
           (ParseState.mk [0] [⟨"a", "a", [], []⟩]).ancestors, []⟩]⟩ :=
  ⟨⟨by decide, by decide, by decide, by decide⟩,
   parseStep_deep_orphan 2 none ⟨[0], [⟨"a", "a", [], []⟩]⟩ "    b"
     (by decide) (by decide) (by decide) (by decide)⟩

/-- C2 counterexample: parsing `"a\n    b"` with indent 2, the second line's
level (2) exceeds the ancestor depth (1); the resulting node is appended with
*nonempty* parents `[0]` (the whole ancestor stack), contradicting the
claim that its parents list is empty. -/
theorem parse_deep_orphan_counterexample :
    parse "a\n    b" 2 none =
      [⟨"a", "a", [], []⟩, ⟨"b", "    b", [0], []⟩] ∧
    (nthNode (parse "a\n    b" 2 none) 1).parents ≠ [] := by
  constructor
  · decide
  · decide

/-- The nested `collections.OrderedDict` structure built by `expand` and
consumed by `flatten` (source lines 409-420, 461-467, 523-529): an
insertion-ordered mapping from raw line text to sub-mappings. -/
inductive RawTrie where
  | node (entries : List (String × RawTrie)) : RawTrie

/-- The entry list of an ordered mapping. -/
def entriesOf : RawTrie → List (String × RawTrie)
  | .node es => es

/-- `expand(obj, items)` (source lines 409-420), with the walked key path
(`[p.raw for p in obj.parents] + [obj.raw]`) and the child raw texts passed
explicitly: walk the key path, creating missing levels in insertion order,
then record each child raw text at the final level if absent. -/
def expandInto (path : List String) (childRaws : List String) (t : RawTrie) :
    RawTrie :=
  match path with
  | [] =>
      .node (childRaws.foldl
        (fun es c =>
          if es.any (fun e => e.1 == c) then es else es ++ [(c, .node [])])
        (entriesOf t))
  | k :: rest =>
      let es := entriesOf t
      if es.any (fun e => e.1 == k) then
        .node (es.map (fun e =>
          if e.1 == k then (e.1, expandInto rest childRaws e.2) else e))
      else
        .node (es ++ [(k, expandInto rest childRaws (.node []))])

mutual
/-- `flatten(data, obj)` (source lines 461-467): pre-order key traversal. -/
def flattenTrie : RawTrie → List String
  | .node es => flattenEntries es

/-- the entry-list part of `flattenTrie` -/
def flattenEntries : List (String × RawTrie) → List String
  | [] => []
  | e :: es => e.1 :: (flattenTrie e.2 ++ flattenEntries es)
end

/-- What `difference` returns (source lines 481-529): the raw update node
list on the junos path, otherwise the flattened ordered raw-line list. -/
inductive DiffOut where
  | objs (l : List ConfigLine)
  | lineOut (ls : List String)
deriving DecidableEq, Repr

/-- The `expand`/`flatten` accumulation step of `difference` (source lines
523-527): with `replace == 'block'` a non-top-level update is replaced by its
last parent (`update.parents[-1]`) before expansion. -/
def diffExpandStep (selfC : CustomNetworkConfig) (rep : String) (t : RawTrie)
    (u : ConfigLine) : RawTrie :=
  let u := if rep == "block" && !u.parents.isEmpty then
             nthNode selfC.nodes (u.parents.getLastD 0)
           else u
  expandInto
    (u.parents.map (fun p => (nthNode selfC.nodes p).raw) ++ [u.raw])
    (u.children.map (fun c => (nthNode selfC.nodes c).raw)) t

/-- `difference(other, path, match, replace)` (source lines 481-529). -/
def difference (selfC otherC : CustomNetworkConfig) (path : Option PyPath)
    (matchMode rep : String) : DiffOut :=
  let config : List ConfigLine :=
    match path with
    | some p => ((getChildrenP selfC p).getD []).map (nthNode selfC.nodes)
    | none => selfC.nodes
  let updates : List ConfigLine :=
    if matchMode == "line" then
      config.filter (fun item =>
        !(otherC.nodes.any (fun e => cfgEqNodes otherC.nodes e selfC.nodes item)))
    else if matchMode == "strict" then
      let current : List ConfigLine :=
        match path with
        | some p => ((getChildrenP otherC p).getD []).map (nthNode otherC.nodes)
        | none => otherC.nodes
      config.enum.filterMap (fun ki =>
        match current.get? ki.1 with
        | some cur =>
            if !(cfgEqNodes selfC.nodes ki.2 otherC.nodes cur) then some ki.2
            else none
        | none => some ki.2)
    else if matchMode == "exact" then
      let current : List ConfigLine :=
        match path with
        | some p => ((getChildrenP otherC p).getD []).map (nthNode otherC.nodes)
        | none => otherC.nodes
      if current.length != config.length then config
      else if (config.zip current).any (fun oc =>
          !(cfgEqNodes selfC.nodes oc.1 otherC.nodes oc.2)) then config
      else []
    else []
  if selfC.device_os == some "junos" then .objs updates
  else .lineOut (flattenTrie (updates.foldl (diffExpandStep selfC rep) (.node [])))

/-- The candidate tree of the spec's diff example: the parse of
`"ip access-list ANSIBLE\n  10 permit tcp 1.1.1.1/24 any\n"` at indent 2
(as `custom_get_config` builds trees, source line 894). -/
def candidateTree : CustomNetworkConfig :=
  ⟨2, parse "ip access-list ANSIBLE\n  10 permit tcp 1.1.1.1/24 any\n" 2 none,
   none⟩

/-- An empty reference tree (`CustomNetworkConfig()`, default indent 1). -/
def emptyTree : CustomNetworkConfig := ⟨1, [], none⟩

/-- C5 (amended): diffing the candidate tree against the empty reference tree
with `match='line'`, `replace='block'` yields the ancestor context line
followed by the child line — but the child line is emitted as its *raw* text,
keeping its two-space indentation. -/
theorem difference_example_block :
    difference candidateTree emptyTree none "line" "block" =
      .lineOut ["ip access-list ANSIBLE", "  10 permit tcp 1.1.1.1/24 any"] := by
  decide

/-- C5 counterexample: the second emitted line is `"  10 permit tcp
1.1.1.1/24 any"` (raw text with indentation), not the claimed
`"10 permit tcp 1.1.1.1/24 any"`. -/
theorem difference_example_block_counterexample :
    difference candidateTree emptyTree none "line" "block" =
      .lineOut ["ip access-list ANSIBLE", "  10 permit tcp 1.1.1.1/24 any"] ∧
    difference candidateTree emptyTree none "line" "block" ≠
      .lineOut ["ip access-list ANSIBLE", "10 permit tcp 1.1.1.1/24 any"] := by
  constructor
  · decide
  · decide

/-- Reference-closedness plus parent-chain consistency: every parent
reference points below its node (acyclic, as produced by `parse`), and the
`k`-th ancestor's own parent list is the first `k` entries of the node's
parent list (true of every tree `parse` builds, where `parents` is always a
prefix of the ancestor stack). -/
def wellFormed (ns : List ConfigLine) : Bool :=
  (List.range ns.length).all (fun i =>
    (List.range (nthNode ns i).parents.length).all (fun k =>
      decide ((nthNode ns i).parents.getD k 0 < i) &&
        ((nthNode ns ((nthNode ns i).parents.getD k 0)).parents ==
          (nthNode ns i).parents.take k)))

lemma wellFormed_parent_fact {ns : List ConfigLine} (h : wellFormed ns = true)
    {i k : Nat} (hi : i < ns.length) (hk : k < (nthNode ns i).parents.length) :
    (nthNode ns i).parents.getD k 0 < i ∧
    (nthNode ns ((nthNode ns i).parents.getD k 0)).parents =
      (nthNode ns i).parents.take k := by
  unfold wellFormed at h
  rw [List.all_eq_true] at h
  have h1 := h i (List.mem_range.mpr hi)
  rw [List.all_eq_true] at h1
  have h2 := h1 k (List.mem_range.mpr hk)
  simpa using h2

lemma wellFormed_le_parent {ns : List ConfigLine} (h : wellFormed ns = true)
    {i : Nat} (hi : i < ns.length) :
    ∀ k, k < (nthNode ns i).parents.length →
      k ≤ (nthNode ns i).parents.getD k 0 := by
  intro k
  induction k with
  | zero => intro _; exact Nat.zero_le _
  | succ k IH =>
      intro hk
      have hk' : k < (nthNode ns i).parents.length := Nat.lt_of_succ_lt hk
      have hfact := wellFormed_parent_fact h hi hk
      set p := (nthNode ns i).parents.getD (k + 1) 0 with hp
      have hpi : p < i := hfact.1
      have hpn : p < ns.length := Nat.lt_trans hpi hi
      have hpar : (nthNode ns p).parents = (nthNode ns i).parents.take (k + 1) :=
        hfact.2
      have hlen : k < (nthNode ns p).parents.length := by
        rw [hpar, List.length_take]
        omega
      have hfact2 := wellFormed_parent_fact h hpn hlen
      have hgd : (nthNode ns p).parents.getD k 0 =
          (nthNode ns i).parents.getD k 0 := by
        rw [hpar]
        rw [List.getD_eq_getElem?_getD, List.getD_eq_getElem?_getD,
          List.getElem?_take_of_lt (Nat.lt_succ_self k)]
      have := IH hk'
      have h2 := hfact2.1
      rw [hgd] at h2
      omega

lemma wellFormed_parents_length_le {ns : List ConfigLine}
    (h : wellFormed ns = true) {i : Nat} (hi : i < ns.length) :
    (nthNode ns i).parents.length ≤ i := by
  rcases Nat.eq_zero_or_pos (nthNode ns i).parents.length with h0 | hpos
  · omega
  · have hk : (nthNode ns i).parents.length - 1 <
        (nthNode ns i).parents.length := by omega
    have h1 := wellFormed_le_parent h hi _ hk
    have h2 := (wellFormed_parent_fact h hi hk).1
    omega


lemma parentTexts_getD {ns : List ConfigLine} {item : ConfigLine} {n : Nat}
    (h : n < item.parents.length) :
    (parentTexts ns item).getD n "" =
      (nthNode ns (item.parents.getD n 0)).text := by
  unfold parentTexts
  rw [List.getD_eq_getElem?_getD, List.getElem?_map, List.getElem?_eq_getElem h]
  simp [List.getD_eq_getElem?_getD, List.getElem?_eq_getElem h]

lemma parentTexts_length {ns : List ConfigLine} {item : ConfigLine} :
    (parentTexts ns item).length = item.parents.length := by
  simp [parentTexts]

/-- On well-formed arenas, Python's recursive node equality coincides with
"normalized text equal and parent-text-chain equal" — the spec's notion of
node equality. -/
lemma cfgEqF_iff_textChain {na nb : List ConfigLine}
    (ha : wellFormed na = true) (hb : wellFormed nb = true) :
    ∀ fuel i j, i < na.length → j < nb.length →
      (nthNode na i).parents.length < fuel →
      (cfgEqF fuel na (nthNode na i) nb (nthNode nb j) = true ↔
        ((nthNode na i).text = (nthNode nb j).text ∧
          parentTexts na (nthNode na i) = parentTexts nb (nthNode nb j))) := by
  intro fuel
  induction fuel with
  | zero => intro i j _ _ hlen; omega
  | succ f IH =>
      intro i j hi hj hlen
      constructor
      · intro heq
        simp only [cfgEqF, Bool.and_eq_true, beq_iff_eq, List.all_eq_true]
          at heq
        obtain ⟨⟨htext, hplen⟩, hall⟩ := heq
        refine ⟨htext, ?_⟩
        apply List.ext_getElem?
        intro n
        by_cases hn1 : n < (nthNode na i).parents.length
        · have hn2 : n < (nthNode nb j).parents.length := by omega
          set p := (nthNode na i).parents.getD n 0 with hpdef
          set q := (nthNode nb j).parents.getD n 0 with hqdef
          have hpe : (nthNode na i).parents[n]? = some p := by
            rw [List.getElem?_eq_getElem hn1, hpdef,
              List.getD_eq_getElem?_getD, List.getElem?_eq_getElem hn1]
            rfl
          have hqe : (nthNode nb j).parents[n]? = some q := by
            rw [List.getElem?_eq_getElem hn2, hqdef,
              List.getD_eq_getElem?_getD, List.getElem?_eq_getElem hn2]
            rfl
          have hzip : ((nthNode na i).parents.zip (nthNode nb j).parents)[n]? =
              some (p, q) :=
            List.getElem?_zip_eq_some.mpr ⟨hpe, hqe⟩
          have hmem : (p, q) ∈ (nthNode na i).parents.zip (nthNode nb j).parents :=
            List.mem_iff_getElem?.mpr ⟨n, hzip⟩
          have hcall := hall _ hmem
          have hfa := wellFormed_parent_fact ha hi hn1
          have hfb := wellFormed_parent_fact hb hj hn2
          have hpna : p < na.length := Nat.lt_trans hfa.1 hi
          have hqnb : q < nb.length := Nat.lt_trans hfb.1 hj
          have hplen2 : (nthNode na p).parents.length = n := by
            rw [hfa.2, List.length_take]
            omega
          have hIH := (IH p q hpna hqnb (by omega)).mp hcall
          rw [List.getElem?_eq_getElem (by rw [parentTexts_length]; exact hn1),
            List.getElem?_eq_getElem (by rw [parentTexts_length]; exact hn2)]
          have hva : (parentTexts na (nthNode na i)).getD n "" =
              (nthNode na p).text := parentTexts_getD hn1
          have hvb : (parentTexts nb (nthNode nb j)).getD n "" =
              (nthNode nb q).text := parentTexts_getD hn2
          rw [List.getD_eq_getElem?_getD,
            List.getElem?_eq_getElem (by rw [parentTexts_length]; exact hn1)]
            at hva
          rw [List.getD_eq_getElem?_getD,
            List.getElem?_eq_getElem (by rw [parentTexts_length]; exact hn2)]
            at hvb
          simp only [Option.getD_some] at hva hvb
          rw [hva, hvb, hIH.1]
        · have hn2 : ¬ n < (nthNode nb j).parents.length := by omega
          rw [List.getElem?_eq_none (by rw [parentTexts_length]; omega),
            List.getElem?_eq_none (by rw [parentTexts_length]; omega)]
      · intro hch
        obtain ⟨htext, hchain⟩ := hch
        have hplen : (nthNode na i).parents.length =
            (nthNode nb j).parents.length := by
          have := congrArg List.length hchain
          rwa [parentTexts_length, parentTexts_length] at this
        simp only [cfgEqF, Bool.and_eq_true, beq_iff_eq, List.all_eq_true]
        refine ⟨⟨htext, hplen⟩, ?_⟩
        intro pq hmem
        obtain ⟨n, hn⟩ := List.mem_iff_getElem?.mp hmem
        obtain ⟨h1, h2⟩ := List.getElem?_zip_eq_some.mp hn
        have hn1 : n < (nthNode na i).parents.length := by
          by_contra hcon
          rw [List.getElem?_eq_none (by omega)] at h1
          exact Option.noConfusion h1
        have hn2 : n < (nthNode nb j).parents.length := by omega
        have hp1 : pq.1 = (nthNode na i).parents.getD n 0 := by
          rw [List.getElem?_eq_getElem hn1] at h1
          rw [List.getD_eq_getElem?_getD, List.getElem?_eq_getElem hn1]
          exact (Option.some_inj.mp h1).symm
        have hp2 : pq.2 = (nthNode nb j).parents.getD n 0 := by
          rw [List.getElem?_eq_getElem hn2] at h2
          rw [List.getD_eq_getElem?_getD, List.getElem?_eq_getElem hn2]
          exact (Option.some_inj.mp h2).symm
        have hfa := wellFormed_parent_fact ha hi hn1
        have hfb := wellFormed_parent_fact hb hj hn2
        rw [← hp1] at hfa
        rw [← hp2] at hfb
        have hpna : pq.1 < na.length := Nat.lt_trans hfa.1 hi
        have hqnb : pq.2 < nb.length := Nat.lt_trans hfb.1 hj
        have hplen2 : (nthNode na pq.1).parents.length = n := by
          rw [hfa.2, List.length_take]
          omega
        apply (IH pq.1 pq.2 hpna hqnb (by omega)).mpr
        constructor
        · have hva := @parentTexts_getD na _ _ hn1
          have hvb := @parentTexts_getD nb _ _ hn2
          rw [← hp1] at hva
          rw [← hp2] at hvb
          rw [← hva, ← hvb, hchain]
        · have hta : parentTexts na (nthNode na pq.1) =
              (parentTexts na (nthNode na i)).take n := by
            simp only [parentTexts, hfa.2, List.map_take]
          have htb : parentTexts nb (nthNode nb pq.2) =
              (parentTexts nb (nthNode nb j)).take n := by
            simp only [parentTexts, hfb.2, List.map_take]
          rw [hta, htb, hchain]

lemma nthNode_getElem? {ns : List ConfigLine} {k : Nat} (h : k < ns.length) :
    ns[k]? = some (nthNode ns k) := by
  rw [List.getElem?_eq_getElem h]
  unfold nthNode
  rw [List.getD_eq_getElem?_getD, List.getElem?_eq_getElem h]
  rfl

lemma foldl_childRaws_ne_nil (cs : List String) :
    ∀ es : List (String × RawTrie), es ≠ [] →
      cs.foldl (fun es c =>
        if es.any (fun e => e.1 == c) then es else es ++ [(c, .node [])]) es ≠ [] := by
  induction cs with
  | nil => intro es h; exact h
  | cons c cs IH =>
      intro es h
      simp only [List.foldl_cons]
      by_cases hany : es.any (fun e => e.1 == c) = true
      · rw [if_pos hany]; exact IH es h
      · rw [if_neg hany]; exact IH _ (by simp)

lemma entriesOf_expandInto_ne_nil {path cs : List String} {t : RawTrie}
    (h : entriesOf t ≠ [] ∨ path ≠ []) :
    entriesOf (expandInto path cs t) ≠ [] := by
  cases path with
  | nil =>
      rcases h with h | h
      · simp only [expandInto, entriesOf]
        exact foldl_childRaws_ne_nil cs _ h
      · exact absurd rfl h
  | cons k rest =>
      cases t with
      | node es =>
          simp only [expandInto, entriesOf]
          by_cases hany : es.any (fun e => e.1 == k) = true
          · rw [if_pos hany]
            simp only [ne_eq, List.map_eq_nil_iff]
            intro hnil
            rw [hnil] at hany
            simp [List.any_nil] at hany
          · rw [if_neg hany]
            simp

lemma foldl_diffExpandStep_ne_nil (selfC : CustomNetworkConfig) (rep : String)
    (us : List ConfigLine) :
    ∀ t : RawTrie, entriesOf t ≠ [] →
      entriesOf (us.foldl (diffExpandStep selfC rep) t) ≠ [] := by
  induction us with
  | nil => intro t h; exact h
  | cons u us IH =>
      intro t h
      simp only [List.foldl_cons]
      apply IH
      unfold diffExpandStep
      exact entriesOf_expandInto_ne_nil (Or.inl h)

lemma flattenTrie_eq_nil_iff (t : RawTrie) :
    flattenTrie t = [] ↔ entriesOf t = [] := by
  cases t with
  | node es =>
      cases es with
      | nil => simp [flattenTrie, flattenEntries, entriesOf]
      | cons e es => simp [flattenTrie, flattenEntries, entriesOf]

lemma diff_flatten_empty_iff (selfC : CustomNetworkConfig) (rep : String)
    (us : List ConfigLine) :
    flattenTrie (us.foldl (diffExpandStep selfC rep) (.node [])) = [] ↔
      us = [] := by
  cases us with
  | nil => simp [flattenTrie, flattenEntries]
  | cons u us =>
      constructor
      · intro h
        exfalso
        rw [flattenTrie_eq_nil_iff] at h
        refine foldl_diffExpandStep_ne_nil selfC rep us _ ?_ h
        unfold diffExpandStep
        exact entriesOf_expandInto_ne_nil (Or.inr (by simp))
      · intro h
        exact absurd h (by simp)

lemma difference_exact_none_eq (A B : CustomNetworkConfig)
    (hos : A.device_os ≠ some "junos") :
    difference A B none "exact" "line" =
      .lineOut (flattenTrie
        ((if B.nodes.length != A.nodes.length then A.nodes
          else if (A.nodes.zip B.nodes).any (fun oc =>
              !(cfgEqNodes A.nodes oc.1 B.nodes oc.2)) then A.nodes
          else []).foldl (diffExpandStep A "line") (.node []))) := by
  have hbeq : (A.device_os == some "junos") = false := by
    simp [hos]
  simp only [difference, hbeq]
  norm_num
  rw [if_neg (show ¬("exact" = "line") by decide),
    if_neg (show ¬("exact" = "strict") by decide)]

/-- C3 (amended): for trees with well-formed parent links (as `parse`
produces) and a non-junos device, `difference(A, B, match='exact')` returns
an empty update list iff A's node list is empty, or A's and B's node lists
have identical length and are pairwise node-equal (equality by normalized
text plus parent-text-chain). -/
theorem difference_exact_empty_iff (A B : CustomNetworkConfig)
    (hA : wellFormed A.nodes = true) (hB : wellFormed B.nodes = true)
    (hos : A.device_os ≠ some "junos") :
    (difference A B none "exact" "line" = .lineOut []) ↔
      (A.nodes = [] ∨
        (A.nodes.length = B.nodes.length ∧
          ∀ k, k < A.nodes.length →
            (nthNode A.nodes k).text = (nthNode B.nodes k).text ∧
            parentTexts A.nodes (nthNode A.nodes k) =
              parentTexts B.nodes (nthNode B.nodes k))) := by
  rw [difference_exact_none_eq A B hos]
  have hinj : ∀ x : List String, (DiffOut.lineOut x = .lineOut []) ↔ x = [] := by
    intro x
    constructor
    · intro h
      cases h
      rfl
    · intro h
      rw [h]
  rw [hinj, diff_flatten_empty_iff]
  by_cases hlen : B.nodes.length = A.nodes.length
  · rw [if_neg (by simp [hlen])]
    by_cases hany : (A.nodes.zip B.nodes).any (fun oc =>
        !(cfgEqNodes A.nodes oc.1 B.nodes oc.2)) = true
    · rw [if_pos hany]
      constructor
      · intro h
        exact Or.inl h
      · rintro (h | ⟨hl, hpair⟩)
        · exact h
        · exfalso
          obtain ⟨oc, hmem, hoc⟩ := List.any_eq_true.mp hany
          obtain ⟨n, hn⟩ := List.mem_iff_getElem?.mp hmem
          obtain ⟨h1, h2⟩ := List.getElem?_zip_eq_some.mp hn
          have hn1 : n < A.nodes.length := by
            by_contra hcon
            rw [List.getElem?_eq_none (by omega)] at h1
            exact Option.noConfusion h1
          have hn2 : n < B.nodes.length := by omega
          rw [nthNode_getElem? hn1] at h1
          rw [nthNode_getElem? hn2] at h2
          have hocfst : oc.1 = nthNode A.nodes n := Option.some_inj.mp h1.symm
          have hocsnd : oc.2 = nthNode B.nodes n := Option.some_inj.mp h2.symm
          have hbound : (nthNode A.nodes n).parents.length <
              A.nodes.length + B.nodes.length + 1 := by
            have := wellFormed_parents_length_le hA hn1
            omega
          have hbridge := (cfgEqF_iff_textChain hA hB
            (A.nodes.length + B.nodes.length + 1) n n hn1 hn2 hbound).mpr
            ⟨(hpair n hn1).1, (hpair n hn1).2⟩
          rw [hocfst, hocsnd] at hoc
          simp [cfgEqNodes, hbridge] at hoc
    · rw [if_neg hany]
      rw [Bool.not_eq_true, List.any_eq_false] at hany
      constructor
      · intro _
        by_cases hAnil : A.nodes = []
        · exact Or.inl hAnil
        · refine Or.inr ⟨hlen.symm, ?_⟩
          intro k hk
          have hk2 : k < B.nodes.length := by omega
          have hzip : (A.nodes.zip B.nodes)[k]? =
              some (nthNode A.nodes k, nthNode B.nodes k) :=
            List.getElem?_zip_eq_some.mpr
              ⟨nthNode_getElem? hk, nthNode_getElem? hk2⟩
          have hmem : (nthNode A.nodes k, nthNode B.nodes k) ∈
              A.nodes.zip B.nodes :=
            List.mem_iff_getElem?.mpr ⟨k, hzip⟩
          have heq : cfgEqNodes A.nodes (nthNode A.nodes k) B.nodes
              (nthNode B.nodes k) = true := by
            simpa using hany _ hmem
          have hbound : (nthNode A.nodes k).parents.length <
              A.nodes.length + B.nodes.length + 1 := by
            have := wellFormed_parents_length_le hA hk
            omega
          exact (cfgEqF_iff_textChain hA hB
            (A.nodes.length + B.nodes.length + 1) k k hk hk2 hbound).mp heq
      · intro _
        rfl
  · rw [if_pos (by simp; omega)]
    constructor
    · intro h
      exact Or.inl h
    · rintro (h | ⟨hl, _⟩)
      · exact h
      · exact absurd hl.symm hlen

/-- C3 witness: the parsed two-node tree against itself satisfies the
well-formedness hypotheses and both sides of the equivalence. -/
theorem difference_exact_empty_iff_witness :
    (wellFormed candidateTree.nodes = true ∧
      candidateTree.device_os ≠ some "junos") ∧
    ((difference candidateTree candidateTree none "exact" "line" =
        .lineOut []) ↔
      (candidateTree.nodes = [] ∨
        (candidateTree.nodes.length = candidateTree.nodes.length ∧
          ∀ k, k < candidateTree.nodes.length →
            (nthNode candidateTree.nodes k).text =
              (nthNode candidateTree.nodes k).text ∧
            parentTexts candidateTree.nodes (nthNode candidateTree.nodes k) =
              parentTexts candidateTree.nodes
                (nthNode candidateTree.nodes k)))) :=
  ⟨⟨by decide, by decide⟩,
   difference_exact_empty_iff candidateTree candidateTree (by decide)
     (by decide) (by decide)⟩

/-- C3 counterexample: with A the empty tree and B the two-node tree,
`difference(A, B, match='exact')` is empty even though the node lists do not
have identical length — refuting the claimed "iff". -/
theorem difference_exact_empty_counterexample :
    difference emptyTree candidateTree none "exact" "line" = .lineOut [] ∧
    emptyTree.nodes.length ≠ candidateTree.nodes.length := by
  constructor
  · decide
  · decide

/-- Python `s.rjust(len(s) + pad)`: left-pad with `pad` spaces. -/
def pyRjust (s : String) (pad : Nat) : String :=
  String.mk (List.replicate pad ' ') ++ s

/-- The parent-resolution loop of `add` (source lines 582-597):
`for index, p in enumerate(parents)` tries `get_section_objects(parents[:i])[0]`
and, on `ValueError`, creates the missing ancestor with raw text indented by
`index * indent` spaces, wires it under the previous ancestor (when one
exists; Python assigns `obj.parents = list(ancestors)` only when `ancestors`
is nonempty, which equals the empty list otherwise), and appends it. -/
def addResolveGo (ps : List String) :
    CustomNetworkConfig → Nat → List String → List Nat →
      CustomNetworkConfig × List Nat
  | cfg, _, [], ancestors => (cfg, ancestors)
  | cfg, index, p :: rest, ancestors =>
      match getSectionObjects cfg (.list (ps.take (index + 1))) with
      | .ok l => addResolveGo ps cfg (index + 1) rest (ancestors ++ [l.headD 0])
      | .error _ =>
          let newIdx := cfg.nodes.length
          let obj : ConfigLine :=
            ⟨p, pyRjust p (index * cfg.indent), ancestors, []⟩
          let ns := if ancestors.isEmpty then cfg.nodes
                    else modifyAt cfg.nodes (ancestors.getLastD 0)
                      (fun n => { n with children := n.children ++ [newIdx] })
          addResolveGo ps { cfg with nodes := ns ++ [obj] } (index + 1) rest
            (ancestors ++ [newIdx])

/-- The child-append loop of `add` (source lines 599-611): each line becomes
a child of the deepest ancestor unless a child with that text already exists
(`for child in ancestors[-1].children: if child.text == line: break`). -/
def addChildren (cfg : CustomNetworkConfig) (ancestors : List Nat)
    (ps : List String) (lines : List String) : CustomNetworkConfig :=
  lines.foldl (fun cfg line =>
    if (nthNode cfg.nodes (ancestors.getLastD 0)).children.any
        (fun c => (nthNode cfg.nodes c).text == line) then cfg
    else
      let newIdx := cfg.nodes.length
      let item : ConfigLine :=
        ⟨line, pyRjust line (ps.length * cfg.indent), ancestors, []⟩
      let ns := modifyAt cfg.nodes (ancestors.getLastD 0)
        (fun n => { n with children := n.children ++ [newIdx] }) ++ [item]
      { cfg with nodes := ns })
    cfg

/-- `add(lines, parents)` (source lines 565-611).  With no parents, each line
becomes a top-level node unless an equal node (`item not in self.items`,
i.e. same text and empty parents) already exists. -/
def addImpl (cfg : CustomNetworkConfig) (lines : List String)
    (ps : List String) : CustomNetworkConfig :=
  if ps.isEmpty then
    lines.foldl (fun cfg line =>
      if cfg.nodes.any (fun e => e.text == line && e.parents.isEmpty) then cfg
      else { cfg with nodes := cfg.nodes ++ [⟨line, line, [], []⟩] }) cfg
  else
    let ra := addResolveGo ps cfg 0 ps []
    addChildren ra.1 ra.2 ps lines

/-- The compiled pattern `re.compile('^%s$' % text, re.I)` searched against a
node text (source lines 539-542, 550): for a metacharacter-free literal this
is case-insensitive equality.  (`'%s' % None` formats as the string
`"None"`.) -/
def litPattern (t : String) (s : String) : Bool :=
  pyLower s == pyLower t

/-- `if not regex: regex = ['^%s$' % text]` (source lines 539-540): both
`None` and an empty pattern list fall back to the anchored literal. -/
def effectivePatterns (t : Option String)
    (rx : Option (List (String → Bool))) : List (String → Bool) :=
  match rx with
  | some (p :: ps) => p :: ps
  | _ => [litPattern (match t with | some s => s | none => "None")]

/-- The per-node condition of the `replace` search loop (source lines
544-554): some pattern matches the node's *normalized* text (the local
`string` selected by `ignore_whitespace` is computed but never used), the
text differs from the replacement, and the parent-text-chain equals the
supplied parents. -/
def replaceCond (nodes : List ConfigLine) (pats : List (String → Bool))
    (r : String) (par : List String) (item : ConfigLine) : Bool :=
  pats.any (fun pat => pat item.text) && item.text != r &&
    (par == parentTexts nodes item)

/-- The `match` selected by the loop of `replace`: Python's `break` exits
only the inner pattern loop, so a later matching item overwrites an earlier
one — the *last* satisfying node wins. -/
def findMatchIdx (nodes : List ConfigLine) (pats : List (String → Bool))
    (r : String) (par : List String) : Option Nat :=
  nodes.enum.foldl (fun acc ki =>
    if replaceCond nodes pats r par ki.2 then some ki.1 else acc) none

/-- `replace(replace, text, regex, parents, add_if_missing, ignore_whitespace)`
(source lines 531-562).  Raises `ValueError` when both `text` and `regex` are
`None`; on a match, mutates that node's text and re-derives its raw text as
the replacement right-justified by the old leading-whitespace width
(`len(match.raw) - len(match.raw.lstrip())`); otherwise delegates to `add`
when `add_if_missing` is set, and is a no-op when it is not.
`ignoreWs` only selects a dead local in the source and has no effect. -/
def replaceImpl (cfg : CustomNetworkConfig) (r : String) (t : Option String)
    (rx : Option (List (String → Bool))) (par : List String)
    (addIfMissing : Bool) (_ignoreWs : Bool) :
    Except String CustomNetworkConfig :=
  if t.isNone && rx.isNone then .error "missing required arguments"
  else
    match findMatchIdx cfg.nodes (effectivePatterns t rx) r par with
    | some i =>
        .ok { cfg with nodes := modifyAt cfg.nodes i (fun n =>
          { n with text := r, raw := pyRjust r (leadingWS n.raw) }) }
    | none =>
        if addIfMissing then .ok (addImpl cfg [r] par) else .ok cfg

/-- C8: `replace` raises `ValueError('missing required arguments')` exactly
when it is invoked with neither a literal text nor a pattern; whenever at
least one is supplied the call returns normally, whatever the other
arguments. -/
theorem replace_error_iff (cfg : CustomNetworkConfig) (r : String)
    (t : Option String) (rx : Option (List (String → Bool)))
    (par : List String) (aim iw : Bool) :
    (∃ e, replaceImpl cfg r t rx par aim iw = .error e) ↔
      (t = none ∧ rx = none) := by
  constructor
  · rintro ⟨e, he⟩
    unfold replaceImpl at he
    by_cases h : (t.isNone && rx.isNone) = true
    · rcases t with _ | tv
      · rcases rx with _ | rv
        · exact ⟨rfl, rfl⟩
        · simp at h
      · simp at h
    · rw [if_neg h] at he
      split at he
      · exact Except.noConfusion he
      · split at he
        · exact Except.noConfusion he
        · exact Except.noConfusion he
  · rintro ⟨ht, hrx⟩
    subst ht
    subst hrx
    exact ⟨"missing required arguments", rfl⟩

lemma findMatchIdx_foldl_none (nodes : List ConfigLine)
    (pats : List (String → Bool)) (r : String) (par : List String) :
    ∀ l : List (Nat × ConfigLine),
      (∀ ki ∈ l, replaceCond nodes pats r par ki.2 = false) →
      l.foldl (fun acc ki =>
        if replaceCond nodes pats r par ki.2 then some ki.1 else acc) none =
        none := by
  intro l
  induction l with
  | nil => intro _; rfl
  | cons x xs IH =>
      intro h
      simp only [List.foldl_cons]
      rw [if_neg (by simp [h x (List.mem_cons_self x xs)])]
      exact IH (fun ki hki => h ki (List.mem_cons_of_mem x hki))

/-- C7: with `add_if_missing` unset, `replace` on a literal/pattern that
matches no node's text is a no-op: the returned tree is the input tree, node
count, texts and raw texts all unchanged. -/
theorem replace_no_match_no_op (cfg : CustomNetworkConfig) (r : String)
    (t : Option String) (rx : Option (List (String → Bool)))
    (par : List String) (iw : Bool)
    (hsup : (t.isNone && rx.isNone) = false)
    (hnomatch : cfg.nodes.all (fun item =>
      (effectivePatterns t rx).all (fun pat => !(pat item.text))) = true) :
    replaceImpl cfg r t rx par false iw = .ok cfg := by
  unfold replaceImpl
  rw [if_neg (by simp [hsup])]
  rw [List.all_eq_true] at hnomatch
  have hfind : findMatchIdx cfg.nodes (effectivePatterns t rx) r par = none := by
    unfold findMatchIdx
    apply findMatchIdx_foldl_none
    intro ki hki
    have hmem : ki.2 ∈ cfg.nodes := by
      obtain ⟨n, hn⟩ := List.mem_iff_getElem?.mp hki
      rw [List.enum_eq_enumFrom, List.getElem?_enumFrom] at hn
      cases hx : cfg.nodes[n]? with
      | none => rw [hx] at hn; exact Option.noConfusion hn
      | some y =>
          rw [hx] at hn
          have : ki = (0 + n, y) := by
            simpa using hn.symm
          rw [this]
          exact List.getElem?_mem hx
    have hpats := hnomatch ki.2 hmem
    rw [List.all_eq_true] at hpats
    unfold replaceCond
    have hany : (effectivePatterns t rx).any (fun pat => pat ki.2.text) = false := by
      rw [List.any_eq_false]
      intro pat hpat
      have := hpats pat hpat
      simp at this
      simp [this]
    simp [hany]
  rw [hfind]
  rfl

/-- C7 witness: a literal that matches neither node of the parsed example
tree leaves it untouched. -/
theorem replace_no_match_no_op_witness :
    (((some "zzz" : Option String).isNone &&
        (none : Option (List (String → Bool))).isNone) = false ∧
      candidateTree.nodes.all (fun item =>
        (effectivePatterns (some "zzz") none).all
          (fun pat => !(pat item.text))) = true) ∧
    replaceImpl candidateTree "repl" (some "zzz") none [] false false =
      .ok candidateTree :=
  ⟨⟨by decide, by decide⟩,
   replace_no_match_no_op candidateTree "repl" (some "zzz") none [] false
     (by decide) (by decide)⟩

/-- The index of the last element of `l` (numbered from `s`) satisfying
`cond` — what the overwrite-style `match = item` loop of `replace` selects. -/
def lastIdxSat (cond : ConfigLine → Bool) : Nat → List ConfigLine → Option Nat
  | _, [] => none
  | s, x :: xs =>
      match lastIdxSat cond (s + 1) xs with
      | some j => some j
      | none => if cond x then some s else none

lemma lastIdxSat_cons (cond : ConfigLine → Bool) (s : Nat) (x : ConfigLine)
    (xs : List ConfigLine) :
    lastIdxSat cond s (x :: xs) =
      match lastIdxSat cond (s + 1) xs with
      | some j => some j
      | none => if cond x then some s else none := rfl

lemma foldl_overwrite_eq_lastIdxSat (cond : ConfigLine → Bool) :
    ∀ (l : List ConfigLine) (s : Nat) (acc : Option Nat),
      (l.enumFrom s).foldl
          (fun a ki => if cond ki.2 then some ki.1 else a) acc =
        match lastIdxSat cond s l with
        | some j => some j
        | none => acc := by
  intro l
  induction l with
  | nil => intro s acc; rfl
  | cons x xs IH =>
      intro s acc
      rw [List.enumFrom_cons]
      simp only [List.foldl_cons]
      rw [IH, lastIdxSat_cons]
      cases h : lastIdxSat cond (s + 1) xs with
      | some j => rfl
      | none =>
          by_cases hc : cond x = true
          · rw [if_pos hc, if_pos hc]
          · rw [if_neg hc, if_neg hc]

lemma lastIdxSat_none (cond : ConfigLine → Bool) :
    ∀ (l : List ConfigLine) (s : Nat), lastIdxSat cond s l = none →
      ∀ m, m < l.length → cond (l.getD m default) = false := by
  intro l
  induction l with
  | nil => intro s _ m hm; simp at hm
  | cons x xs IH =>
      intro s h m hm
      rw [lastIdxSat_cons] at h
      cases h2 : lastIdxSat cond (s + 1) xs with
      | some j => rw [h2] at h; exact Option.noConfusion h
      | none =>
          rw [h2] at h
          by_cases hc : cond x = true
          · rw [if_pos hc] at h; exact Option.noConfusion h
          · cases m with
            | zero => simpa using hc
            | succ m => exact IH (s + 1) h2 m (by simpa using hm)

lemma lastIdxSat_spec (cond : ConfigLine → Bool) :
    ∀ (l : List ConfigLine) (s j : Nat), lastIdxSat cond s l = some j →
      s ≤ j ∧ j - s < l.length ∧ cond (l.getD (j - s) default) = true ∧
      ∀ m, j - s < m → m < l.length → cond (l.getD m default) = false := by
  intro l
  induction l with
  | nil => intro s j h; exact Option.noConfusion h
  | cons x xs IH =>
      intro s j h
      rw [lastIdxSat_cons] at h
      cases h2 : lastIdxSat cond (s + 1) xs with
      | some j2 =>
          rw [h2] at h
          cases h
          obtain ⟨h1, hlen, hcond, hafter⟩ := IH (s + 1) j h2
          refine ⟨by omega, by simp; omega, ?_, ?_⟩
          · have hrw : j - s = (j - (s + 1)) + 1 := by omega
            rw [hrw]
            simpa using hcond
          · intro m hm hmlen
            have hrw : m = (m - 1) + 1 := by omega
            rw [hrw]
            have := hafter (m - 1) (by omega) (by simp at hmlen; omega)
            simpa using this
      | none =>
          rw [h2] at h
          by_cases hc : cond x = true
          · rw [if_pos hc] at h
            cases h
            refine ⟨Nat.le_refl s, by simp, by simpa [Nat.sub_self] using hc, ?_⟩
            intro m hm hmlen
            have hrw : m = (m - 1) + 1 := by omega
            rw [hrw]
            have := lastIdxSat_none cond xs (s + 1) h2 (m - 1)
              (by simp at hmlen; omega)
            simpa using this
          · rw [if_neg hc] at h; exact Option.noConfusion h

lemma findMatchIdx_spec {nodes : List ConfigLine}
    {pats : List (String → Bool)} {r : String} {par : List String} {i : Nat}
    (h : findMatchIdx nodes pats r par = some i) :
    i < nodes.length ∧
    replaceCond nodes pats r par (nthNode nodes i) = true ∧
    ∀ j, i < j → j < nodes.length →
      replaceCond nodes pats r par (nthNode nodes j) = false := by
  unfold findMatchIdx at h
  rw [List.enum_eq_enumFrom, foldl_overwrite_eq_lastIdxSat] at h
  cases h2 : lastIdxSat (replaceCond nodes pats r par) 0 nodes with
  | none => rw [h2] at h; exact Option.noConfusion h
  | some j =>
      rw [h2] at h
      cases h
      obtain ⟨_, hlen, hcond, hafter⟩ :=
        lastIdxSat_spec (replaceCond nodes pats r par) nodes 0 i h2
      simp only [Nat.sub_zero] at hlen hcond hafter
      exact ⟨hlen, hcond, fun j hij hjlen => hafter j hij hjlen⟩

/-- C4 (amended): when the search of `replace` selects a node, that node is
the *last* one whose *normalized text* (raw text is never consulted) matches
a pattern, whose text differs from the replacement, and whose
parent-text-chain equals the supplied parents; `replace` then mutates exactly
that node, setting its text to the replacement and re-deriving its raw text
as the replacement indented by the node's original leading-whitespace
width. -/
theorem replace_mutates_last_match (cfg : CustomNetworkConfig) (r : String)
    (t : Option String) (rx : Option (List (String → Bool)))
    (par : List String) (aim iw : Bool) (i : Nat)
    (hsup : (t.isNone && rx.isNone) = false)
    (hfind : findMatchIdx cfg.nodes (effectivePatterns t rx) r par = some i) :
    i < cfg.nodes.length ∧
    replaceCond cfg.nodes (effectivePatterns t rx) r par
      (nthNode cfg.nodes i) = true ∧
    (∀ j, i < j → j < cfg.nodes.length →
      replaceCond cfg.nodes (effectivePatterns t rx) r par
        (nthNode cfg.nodes j) = false) ∧
    replaceImpl cfg r t rx par aim iw =
      .ok { cfg with nodes := modifyAt cfg.nodes i (fun n =>
        { n with text := r, raw := pyRjust r (leadingWS n.raw) }) } := by
  obtain ⟨h1, h2, h3⟩ := findMatchIdx_spec hfind
  refine ⟨h1, h2, h3, ?_⟩
  unfold replaceImpl
  rw [if_neg (by simp [hsup]), hfind]

/-- A tree with two nodes of text `"a"`, the second indented. -/
def rep2Tree : CustomNetworkConfig :=
  ⟨1, [⟨"a", "a", [], []⟩, ⟨"a", "  a", [], []⟩], none⟩

/-- C4 witness: with literal `"a"`, the search selects position 1 (the last
match); the mutation keeps its two-space indentation. -/
theorem replace_mutates_last_match_witness :
    1 < rep2Tree.nodes.length ∧
    replaceCond rep2Tree.nodes (effectivePatterns (some "a") none) "b" []
      (nthNode rep2Tree.nodes 1) = true ∧
    (∀ j, 1 < j → j < rep2Tree.nodes.length →
      replaceCond rep2Tree.nodes (effectivePatterns (some "a") none) "b" []
        (nthNode rep2Tree.nodes j) = false) ∧
    replaceImpl rep2Tree "b" (some "a") none [] false false =
      .ok { rep2Tree with nodes := modifyAt rep2Tree.nodes 1 (fun n =>
        { n with text := "b", raw := pyRjust "b" (leadingWS n.raw) }) } :=
  replace_mutates_last_match rep2Tree "b" (some "a") none [] false false 1
    (by decide) (by decide)

/-- A one-node tree whose raw text, but not normalized text, equals a
would-be literal argument. -/
def rawLitTree : CustomNetworkConfig := ⟨1, [⟨"x", "  x", [], []⟩], none⟩

/-- A tree where the first matching node is not the last. -/
def firstLastTree : CustomNetworkConfig :=
  ⟨1, [⟨"ab", "ab", [], []⟩, ⟨"a", "a", [], []⟩], none⟩

/-- C4 counterexample.  Part 1: node 0's *raw* text equals the literal
`"  x"`, its parent chain matches and its text differs from the replacement,
yet `replace` changes nothing — the search never consults raw text.  Part 2:
node 0's normalized text matches the pattern, its chain matches and its text
differs from the replacement, yet `replace` leaves node 0 alone and mutates
node 1 — the *last* match wins, not the first. -/
theorem replace_counterexample :
    ((nthNode rawLitTree.nodes 0).raw = "  x" ∧
      parentTexts rawLitTree.nodes (nthNode rawLitTree.nodes 0) = [] ∧
      (nthNode rawLitTree.nodes 0).text ≠ "y" ∧
      replaceImpl rawLitTree "y" (some "  x") none [] false false =
        .ok rawLitTree) ∧
    ((fun s => pyStartsWith s "a") (nthNode firstLastTree.nodes 0).text =
        true ∧
      (nthNode firstLastTree.nodes 0).text ≠ "z" ∧
      parentTexts firstLastTree.nodes (nthNode firstLastTree.nodes 0) = [] ∧
      replaceImpl firstLastTree "z" none
          (some [fun s => pyStartsWith s "a"]) [] false false =
        .ok ⟨1, [⟨"ab", "ab", [], []⟩, ⟨"z", "z", [], []⟩], none⟩) :=
  ⟨⟨rfl, rfl, by decide, rfl⟩, ⟨rfl, by decide, rfl, rfl⟩⟩

lemma getObjectGoStr_none (nodes : List ConfigLine) (s : String) :
    ∀ (i : Nat) (l : List ConfigLine),
      getObjectP.getObjectGo' nodes s i l = none := by
  intro i l
  induction l generalizing i with
  | nil => rfl
  | cons x xs IH =>
      unfold getObjectP.getObjectGo'
      rw [if_neg (by simp [listEqStrPy])]
      exact IH (i + 1)

lemma getObjectGo_isSome_of_mem {nodes : List ConfigLine} {path : List String} :
    ∀ (l : List ConfigLine) (i : Nat),
      (∃ x ∈ l, matchQ nodes path x = true) →
      (getObjectGo nodes path i l).isSome = true := by
  intro l
  induction l with
  | nil =>
      intro i h
      obtain ⟨x, hx, _⟩ := h
      simp at hx
  | cons y ys IH =>
      intro i h
      unfold getObjectGo
      by_cases hy : matchQ nodes path y = true
      · rw [if_pos hy]; rfl
      · rw [if_neg hy]
        obtain ⟨x, hx, hmx⟩ := h
        rcases List.mem_cons.mp hx with rfl | hx2
        · exact absurd hmx hy
        · exact IH (i + 1) ⟨x, hx2, hmx⟩

/-- C10 (amended): `get` wraps a bare string path into a one-element path,
but `get_object`/`get_children` do not.  For a bare (nonempty) string path,
`get_object` indexes into the string itself and compares the node's parent
list against a string — a cross-type comparison that never succeeds — so it
finds *no* node at all; consequently `get_children` returns the not-found
signal for every bare string, even though `get` with the same string finds a
node whenever a top-level node with that exact text exists.  (For the empty
string Python raises IndexError instead; that case is excluded here.) -/
theorem get_object_bare_string_never_finds (cfg : CustomNetworkConfig)
    (s : String) (_hs : s ≠ "") :
    getObjectP cfg (.str s) = none ∧
    getChildrenP cfg (.str s) = none ∧
    getP cfg (.str s) = getObjectL cfg [s] ∧
    ((∃ item ∈ cfg.nodes, item.text = s ∧ item.parents = []) →
      (getP cfg (.str s)).isSome = true) := by
  have h1 : getObjectP cfg (.str s) = none := by
    simp only [getObjectP]
    exact getObjectGoStr_none cfg.nodes s 0 cfg.nodes
  refine ⟨h1, ?_, rfl, ?_⟩
  · unfold getChildrenP
    rw [h1]
    rfl
  · rintro ⟨item, hmem, htext, hpar⟩
    simp only [getP, getObjectL]
    apply getObjectGo_isSome_of_mem cfg.nodes 0
    refine ⟨item, hmem, ?_⟩
    simp [matchQ, htext, hpar, parentTexts]

/-- C10 witness: a tree with the top-level node `"ab"`; `get` finds it from
the bare string, `get_object`/`get_children` do not. -/
theorem get_object_bare_string_never_finds_witness :
    ("ab" : String) ≠ "" ∧
    (getObjectP ⟨1, [⟨"ab", "ab", [], []⟩], none⟩ (.str "ab") = none ∧
      getChildrenP ⟨1, [⟨"ab", "ab", [], []⟩], none⟩ (.str "ab") = none ∧
      getP ⟨1, [⟨"ab", "ab", [], []⟩], none⟩ (.str "ab") =
        getObjectL ⟨1, [⟨"ab", "ab", [], []⟩], none⟩ ["ab"] ∧
      ((∃ item ∈ (⟨1, [⟨"ab", "ab", [], []⟩], none⟩ :
            CustomNetworkConfig).nodes, item.text = "ab" ∧ item.parents = []) →
        (getP ⟨1, [⟨"ab", "ab", [], []⟩], none⟩ (.str "ab")).isSome = true)) :=
  ⟨by decide,
   get_object_bare_string_never_finds ⟨1, [⟨"ab", "ab", [], []⟩], none⟩ "ab"
     (by decide)⟩

/-- C10 counterexample: in a tree whose only node is the top-level `"a"`, the
bare string path `"a"` has last character `"a"` — the claim's described
lookup ("a top-level node whose text equals the last character") would find
that node — yet `get_object` returns the not-found signal, because its
parent comparison is a list-against-string comparison that is always false.
-/
theorem get_object_bare_string_counterexample :
    (nthNode (⟨1, [⟨"a", "a", [], []⟩], none⟩ :
        CustomNetworkConfig).nodes 0).text = lastCharStr "a" ∧
    (nthNode (⟨1, [⟨"a", "a", [], []⟩], none⟩ :
        CustomNetworkConfig).nodes 0).parents = [] ∧
    getObjectP ⟨1, [⟨"a", "a", [], []⟩], none⟩ (.str "a") = none := by
  refine ⟨by decide, by decide, ?_⟩
  decide

/-- Reference-closedness: every parent reference points into the arena (true
of every Python heap, where references always denote existing objects). -/
def closedArena (ns : List ConfigLine) : Bool :=
  ns.all (fun item => item.parents.all (fun p => decide (p < ns.length)))

/-- `nb` extends `na` the way `add` grows an arena: nodes are only appended
and children lists grown — the text and parent list of every existing
position are untouched. -/
def ExtArena (na nb : List ConfigLine) : Prop :=
  na.length ≤ nb.length ∧
  ∀ i, i < na.length →
    (nthNode nb i).text = (nthNode na i).text ∧
    (nthNode nb i).parents = (nthNode na i).parents

lemma extArena_refl (na : List ConfigLine) : ExtArena na na :=
  ⟨Nat.le_refl _, fun _ _ => ⟨rfl, rfl⟩⟩

lemma extArena_trans {na nb nc : List ConfigLine} (h1 : ExtArena na nb)
    (h2 : ExtArena nb nc) : ExtArena na nc := by
  refine ⟨Nat.le_trans h1.1 h2.1, fun i hi => ?_⟩
  have hab := h1.1
  have hb := h1.2 i hi
  have hc := h2.2 i (by omega)
  exact ⟨hc.1.trans hb.1, hc.2.trans hb.2⟩

lemma nthNode_mem {ns : List ConfigLine} {i : Nat} (h : i < ns.length) :
    nthNode ns i ∈ ns :=
  List.getElem?_mem (nthNode_getElem? h)

lemma closedArena_iff {ns : List ConfigLine} :
    closedArena ns = true ↔
      ∀ i, i < ns.length → ∀ p ∈ (nthNode ns i).parents, p < ns.length := by
  unfold closedArena
  rw [List.all_eq_true]
  constructor
  · intro h i hi p hp
    have := h (nthNode ns i) (nthNode_mem hi)
    rw [List.all_eq_true] at this
    simpa using this p hp
  · intro h item hmem
    rw [List.all_eq_true]
    intro p hp
    obtain ⟨n, hn⟩ := List.mem_iff_getElem?.mp hmem
    have hnlen : n < ns.length := by
      by_contra hcon
      rw [List.getElem?_eq_none (by omega)] at hn
      exact Option.noConfusion hn
    have hitem : item = nthNode ns n := by
      rw [nthNode_getElem? hnlen] at hn
      exact (Option.some_inj.mp hn).symm
    subst hitem
    simpa using h n hnlen p hp

lemma parentTexts_stable {na nb : List ConfigLine} (hext : ExtArena na nb)
    {item : ConfigLine} (hcl : ∀ p ∈ item.parents, p < na.length) :
    parentTexts nb item = parentTexts na item := by
  unfold parentTexts
  apply List.map_congr_left
  intro p hp
  exact (hext.2 p (hcl p hp)).1

lemma matchQ_stable {na nb : List ConfigLine} (hcla : closedArena na = true)
    (hext : ExtArena na nb) {k : Nat} (hk : k < na.length)
    (path : List String) :
    matchQ nb path (nthNode nb k) = matchQ na path (nthNode na k) := by
  unfold matchQ
  have h1 := hext.2 k hk
  rw [h1.1]
  have h2 : parentTexts nb (nthNode nb k) = parentTexts na (nthNode na k) := by
    unfold parentTexts
    rw [h1.2]
    apply List.map_congr_left
    intro p hp
    exact (hext.2 p (closedArena_iff.mp hcla k hk p hp)).1
  rw [h2]

lemma getObjectGo_eq_some_iff (nodes : List ConfigLine) (path : List String) :
    ∀ (l : List ConfigLine) (i v : Nat),
      (getObjectGo nodes path i l = some v ↔
        ∃ k, k < l.length ∧ v = i + k ∧
          matchQ nodes path (l.getD k default) = true ∧
          ∀ m, m < k → matchQ nodes path (l.getD m default) = false) := by
  intro l
  induction l with
  | nil =>
      intro i v
      constructor
      · intro h; exact Option.noConfusion h
      · rintro ⟨k, hk, _⟩; simp at hk
  | cons x xs IH =>
      intro i v
      unfold getObjectGo
      by_cases hx : matchQ nodes path x = true
      · rw [if_pos hx]
        constructor
        · intro h
          cases h
          exact ⟨0, by simp, by omega, by simpa using hx, by omega⟩
        · rintro ⟨k, hk, hv, hmk, hbefore⟩
          cases k with
          | zero => simp [hv]
          | succ k =>
              have := hbefore 0 (Nat.succ_pos k)
              simp at this
              exact absurd hx (by simp [this])
      · rw [if_neg hx]
        rw [IH (i + 1) v]
        constructor
        · rintro ⟨k, hk, hv, hmk, hbefore⟩
          refine ⟨k + 1, by simpa using Nat.succ_lt_succ hk, by omega,
            by simpa using hmk, ?_⟩
          intro m hm
          cases m with
          | zero => simpa using (by simpa using hx : matchQ nodes path x = false)
          | succ m => simpa using hbefore m (by omega)
        · rintro ⟨k, hk, hv, hmk, hbefore⟩
          cases k with
          | zero =>
              simp at hmk
              exact absurd hmk hx
          | succ k =>
              refine ⟨k, by simpa using hk, by omega, by simpa using hmk, ?_⟩
              intro m hm
              have := hbefore (m + 1) (by omega)
              simpa using this

lemma getObjectGo_eq_none_iff (nodes : List ConfigLine) (path : List String) :
    ∀ (l : List ConfigLine) (i : Nat),
      (getObjectGo nodes path i l = none ↔
        ∀ m, m < l.length → matchQ nodes path (l.getD m default) = false) := by
  intro l
  induction l with
  | nil =>
      intro i
      constructor
      · intro _ m hm; simp at hm
      · intro _; rfl
  | cons x xs IH =>
      intro i
      unfold getObjectGo
      by_cases hx : matchQ nodes path x = true
      · rw [if_pos hx]
        constructor
        · intro h; exact Option.noConfusion h
        · intro h
          have := h 0 (by simp)
          simp at this
          exact absurd hx (by simp [this])
      · rw [if_neg hx]
        rw [IH (i + 1)]
        constructor
        · intro h m hm
          cases m with
          | zero => simpa using (by simpa using hx : matchQ nodes path x = false)
          | succ m => simpa using h m (by simpa using hm)
        · intro h m hm
          have := h (m + 1) (by simpa using Nat.succ_lt_succ hm)
          simpa using this

/-- `get_object` characterised: `some v` means position `v` is the first
match. -/
lemma getObjectL_eq_some_iff {cfg : CustomNetworkConfig} {path : List String}
    {v : Nat} :
    getObjectL cfg path = some v ↔
      (v < cfg.nodes.length ∧
        matchQ cfg.nodes path (nthNode cfg.nodes v) = true ∧
        ∀ m, m < v → matchQ cfg.nodes path (nthNode cfg.nodes m) = false) := by
  unfold getObjectL
  rw [getObjectGo_eq_some_iff]
  constructor
  · rintro ⟨k, hk, hv, hmk, hbefore⟩
    subst hv
    simp only [Nat.zero_add]
    exact ⟨hk, hmk, hbefore⟩
  · rintro ⟨hv, hmv, hbefore⟩
    exact ⟨v, hv, by omega, hmv, hbefore⟩

lemma getObjectL_eq_none_iff {cfg : CustomNetworkConfig} {path : List String} :
    getObjectL cfg path = none ↔
      ∀ m, m < cfg.nodes.length →
        matchQ cfg.nodes path (nthNode cfg.nodes m) = false := by
  unfold getObjectL
  rw [getObjectGo_eq_none_iff]
  exact Iff.rfl

/-- A successful lookup survives any arena extension. -/
lemma getObjectL_stable {A B : CustomNetworkConfig}
    (hcla : closedArena A.nodes = true) (hext : ExtArena A.nodes B.nodes)
    {path : List String} {v : Nat} (h : getObjectL A path = some v) :
    getObjectL B path = some v := by
  obtain ⟨hv, hmv, hbefore⟩ := getObjectL_eq_some_iff.mp h
  apply getObjectL_eq_some_iff.mpr
  refine ⟨by have := hext.1; omega, ?_, ?_⟩
  · rw [matchQ_stable hcla hext hv]
    exact hmv
  · intro m hm
    rw [matchQ_stable hcla hext (by omega)]
    exact hbefore m hm

lemma getD_append_lt {l1 l2 : List Nat} {m : Nat} (h : m < l1.length) :
    (l1 ++ l2).getD m 0 = l1.getD m 0 := by
  rw [List.getD_eq_getElem?_getD, List.getD_eq_getElem?_getD,
    List.getElem?_append_left h]

lemma getD_append_self {l1 l2 : List Nat} {d : Nat} :
    (l1 ++ l2).getD l1.length d = l2.getD 0 d := by
  rw [List.getD_eq_getElem?_getD, List.getD_eq_getElem?_getD,
    List.getElem?_append_right (Nat.le_refl _), Nat.sub_self]

lemma nthNode_append_lt {l1 l2 : List ConfigLine} {m : Nat}
    (h : m < l1.length) : nthNode (l1 ++ l2) m = nthNode l1 m := by
  unfold nthNode
  rw [List.getD_eq_getElem?_getD, List.getD_eq_getElem?_getD,
    List.getElem?_append_left h]

lemma nthNode_append_self {l1 : List ConfigLine} {x : ConfigLine} :
    nthNode (l1 ++ [x]) l1.length = x := by
  unfold nthNode
  rw [List.getD_eq_getElem?_getD, List.getElem?_append_right (Nat.le_refl _),
    Nat.sub_self]
  rfl

lemma nthNode_modifyAt_fields (l : List ConfigLine) (a i : Nat)
    (f : ConfigLine → ConfigLine)
    (htext : ∀ n, (f n).text = n.text)
    (hpar : ∀ n, (f n).parents = n.parents) :
    (nthNode (modifyAt l a f) i).text = (nthNode l i).text ∧
    (nthNode (modifyAt l a f) i).parents = (nthNode l i).parents := by
  unfold modifyAt nthNode
  by_cases hia : a = i
  · subst hia
    by_cases ha : a < l.length
    · rw [List.getD_eq_getElem?_getD, List.getElem?_set_self ha]
      rw [List.getD_eq_getElem?_getD l]
      rw [List.getElem?_eq_getElem ha]
      exact ⟨htext _, hpar _⟩
    · rw [List.set_eq_of_length_le (by omega)]
      exact ⟨rfl, rfl⟩
  · rw [List.getD_eq_getElem?_getD, List.getElem?_set_ne hia,
      ← List.getD_eq_getElem?_getD]
    exact ⟨rfl, rfl⟩

lemma modifyAt_length (l : List ConfigLine) (a : Nat)
    (f : ConfigLine → ConfigLine) : (modifyAt l a f).length = l.length := by
  unfold modifyAt
  exact List.length_set ..

lemma list_eq_of_getD_str {l1 l2 : List String} (hlen : l1.length = l2.length)
    (h : ∀ k, k < l1.length → l1.getD k "" = l2.getD k "") : l1 = l2 := by
  apply List.ext_getElem?
  intro n
  by_cases hn : n < l1.length
  · have hn2 : n < l2.length := by omega
    have := h n hn
    rw [List.getD_eq_getElem?_getD, List.getD_eq_getElem?_getD,
      List.getElem?_eq_getElem hn, List.getElem?_eq_getElem hn2] at this
    simp only [Option.getD_some] at this
    rw [List.getElem?_eq_getElem hn, List.getElem?_eq_getElem hn2, this]
  · rw [List.getElem?_eq_none (by omega), List.getElem?_eq_none (by omega)]

lemma mem_nat_list_getD {l : List Nat} {p : Nat} (h : p ∈ l) :
    ∃ m, m < l.length ∧ l.getD m 0 = p := by
  obtain ⟨n, hn⟩ := List.mem_iff_getElem?.mp h
  have hnl : n < l.length := by
    by_contra hcon
    rw [List.getElem?_eq_none (by omega)] at hn
    exact Option.noConfusion hn
  refine ⟨n, hnl, ?_⟩
  rw [List.getD_eq_getElem?_getD, hn]
  rfl

lemma expandSection_succ (cfg : CustomNetworkConfig) (f i : Nat)
    (S : List Nat) :
    expandSection cfg (f + 1) i S =
      (nthNode cfg.nodes i).children.foldl
        (fun acc c =>
          if acc.any (fun j =>
              cfgEqNodes cfg.nodes (nthNode cfg.nodes j) cfg.nodes
                (nthNode cfg.nodes c)) then
            acc
          else expandSection cfg f c acc)
        (S ++ [i]) := rfl

lemma expandSection_extends (cfg : CustomNetworkConfig) :
    ∀ (fuel i : Nat) (S : List Nat),
      ∃ t, expandSection cfg fuel i S = S ++ t := by
  intro fuel
  induction fuel with
  | zero => intro i S; exact ⟨[], by simp [expandSection]⟩
  | succ f IH =>
      intro i S
      rw [expandSection_succ]
      have haux : ∀ (cs : List Nat) (S0 : List Nat),
          ∃ t, cs.foldl
            (fun acc c =>
              if acc.any (fun j =>
                  cfgEqNodes cfg.nodes (nthNode cfg.nodes j) cfg.nodes
                    (nthNode cfg.nodes c)) then
                acc
              else expandSection cfg f c acc) S0 = S0 ++ t := by
        intro cs
        induction cs with
        | nil => intro S0; exact ⟨[], by simp⟩
        | cons c cs IH2 =>
            intro S0
            simp only [List.foldl_cons]
            by_cases hmem : S0.any (fun j =>
                cfgEqNodes cfg.nodes (nthNode cfg.nodes j) cfg.nodes
                  (nthNode cfg.nodes c)) = true
            · rw [if_pos hmem]
              exact IH2 S0
            · rw [if_neg hmem]
              obtain ⟨t1, ht1⟩ := IH c S0
              rw [ht1]
              obtain ⟨t2, ht2⟩ := IH2 (S0 ++ t1)
              rw [ht2]
              exact ⟨t1 ++ t2, by simp⟩
      obtain ⟨t, ht⟩ := haux (nthNode cfg.nodes i).children (S ++ [i])
      rw [ht]
      exact ⟨i :: t, by simp⟩

lemma getSectionObjects_list_eq (cfg : CustomNetworkConfig)
    (pre : List String) :
    getSectionObjects cfg (.list pre) =
      match getObjectL cfg pre with
      | none => .error "path does not exist in config"
      | some i => .ok (expandSection cfg (cfg.nodes.length + 1) i []) := rfl

lemma expandSection_fold_extends (cfg : CustomNetworkConfig) (f : Nat) :
    ∀ (cs : List Nat) (S0 : List Nat),
      ∃ t, cs.foldl
        (fun acc c =>
          if acc.any (fun j =>
              cfgEqNodes cfg.nodes (nthNode cfg.nodes j) cfg.nodes
                (nthNode cfg.nodes c)) then
            acc
          else expandSection cfg f c acc) S0 = S0 ++ t := by
  intro cs
  induction cs with
  | nil => intro S0; exact ⟨[], by simp⟩
  | cons c cs IH2 =>
      intro S0
      simp only [List.foldl_cons]
      by_cases hmem : S0.any (fun j =>
          cfgEqNodes cfg.nodes (nthNode cfg.nodes j) cfg.nodes
            (nthNode cfg.nodes c)) = true
      · rw [if_pos hmem]
        exact IH2 S0
      · rw [if_neg hmem]
        obtain ⟨t1, ht1⟩ := expandSection_extends cfg f c S0
        rw [ht1]
        obtain ⟨t2, ht2⟩ := IH2 (S0 ++ t1)
        rw [ht2]
        exact ⟨t1 ++ t2, by simp⟩

lemma getSectionObjects_of_some {cfg : CustomNetworkConfig}
    {pre : List String} {v : Nat} (h : getObjectL cfg pre = some v) :
    getSectionObjects cfg (.list pre) =
      .ok (expandSection cfg (cfg.nodes.length + 1) v []) ∧
    (expandSection cfg (cfg.nodes.length + 1) v []).headD 0 = v := by
  refine ⟨by rw [getSectionObjects_list_eq, h], ?_⟩
  rw [expandSection_succ]
  obtain ⟨t, ht⟩ :=
    expandSection_fold_extends cfg cfg.nodes.length
      (nthNode cfg.nodes v).children ([] ++ [v])
  rw [ht]
  rfl

lemma getSectionObjects_of_none {cfg : CustomNetworkConfig}
    {pre : List String} (h : getObjectL cfg pre = none) :
    getSectionObjects cfg (.list pre) =
      .error "path does not exist in config" := by
  rw [getSectionObjects_list_eq, h]

lemma chainTexts_stable {na nb : List ConfigLine}
    (hcla : closedArena na = true) (hext : ExtArena na nb) {v : Nat}
    (hv : v < na.length) :
    parentTexts nb (nthNode nb v) = parentTexts na (nthNode na v) := by
  unfold parentTexts
  rw [(hext.2 v hv).2]
  apply List.map_congr_left
  intro p hp
  exact (hext.2 p (closedArena_iff.mp hcla v hv p hp)).1

/-- The invariant maintained for resolved ancestor `m`: its position is in
range, its text and parent-text-chain are the corresponding prefix of the
requested parent chain, and `get_object` on that prefix finds exactly it. -/
def ancProps (ps : List String) (cfg : CustomNetworkConfig) (anc : List Nat)
    (m : Nat) : Prop :=
  anc.getD m 0 < cfg.nodes.length ∧
  (nthNode cfg.nodes (anc.getD m 0)).text = ps.getD m "" ∧
  parentTexts cfg.nodes (nthNode cfg.nodes (anc.getD m 0)) = ps.take m ∧
  getObjectL cfg (ps.take (m + 1)) = some (anc.getD m 0)

lemma ancProps_stable {ps : List String} {A B : CustomNetworkConfig}
    {anc anc2 : List Nat} {m : Nat}
    (hcl : closedArena A.nodes = true) (hext : ExtArena A.nodes B.nodes)
    (hgd : anc2.getD m 0 = anc.getD m 0)
    (h : ancProps ps A anc m) : ancProps ps B anc2 m := by
  obtain ⟨h1, h2, h3, h4⟩ := h
  unfold ancProps
  rw [hgd]
  have hlen := hext.1
  refine ⟨by omega, ?_, ?_, getObjectL_stable hcl hext h4⟩
  · rw [(hext.2 _ h1).1]
    exact h2
  · rw [chainTexts_stable hcl hext h1]
    exact h3

lemma take_getLastD {ps : List String} {index : Nat}
    (h : index < ps.length) :
    (ps.take (index + 1)).getLastD "" = ps.getD index "" := by
  rw [List.getLastD_eq_getLast?, List.getLast?_eq_getElem?]
  have hlen : (ps.take (index + 1)).length = index + 1 := by
    rw [List.length_take]
    omega
  rw [hlen]
  simp only [Nat.add_sub_cancel]
  rw [List.getElem?_take_of_lt (Nat.lt_succ_self index),
    List.getD_eq_getElem?_getD]

lemma take_dropLast {ps : List String} {index : Nat}
    (h : index < ps.length) :
    (ps.take (index + 1)).dropLast = ps.take index := by
  rw [List.dropLast_eq_take]
  have hlen : (ps.take (index + 1)).length = index + 1 := by
    rw [List.length_take]
    omega
  rw [hlen]
  simp only [Nat.add_sub_cancel]
  rw [List.take_take]
  congr 1
  omega

lemma take_getD_lt {ps : List String} {index k : Nat} (h : k < index) :
    (ps.take index).getD k "" = ps.getD k "" := by
  rw [List.getD_eq_getElem?_getD, List.getD_eq_getElem?_getD,
    List.getElem?_take_of_lt h]

lemma addResolveGo_cons (ps : List String) (cfg : CustomNetworkConfig)
    (index : Nat) (p : String) (rest' : List String) (anc : List Nat) :
    addResolveGo ps cfg index (p :: rest') anc =
      match getSectionObjects cfg (.list (ps.take (index + 1))) with
      | .ok l => addResolveGo ps cfg (index + 1) rest' (anc ++ [l.headD 0])
      | .error _ =>
          addResolveGo ps
            { cfg with nodes :=
                (if anc.isEmpty then cfg.nodes
                 else modifyAt cfg.nodes (anc.getLastD 0)
                   (fun n => { n with children :=
                     n.children ++ [cfg.nodes.length] })) ++
                  [⟨p, pyRjust p (index * cfg.indent), anc, []⟩] }
            (index + 1) rest' (anc ++ [cfg.nodes.length]) := rfl

/-- The state after `add` creates a missing ancestor (the `except ValueError`
branch, source lines 588-597). -/
def createdCfg (cfg : CustomNetworkConfig) (index : Nat) (p : String)
    (anc : List Nat) : CustomNetworkConfig :=
  { cfg with nodes :=
      (if anc.isEmpty then cfg.nodes
       else modifyAt cfg.nodes (anc.getLastD 0)
         (fun n => { n with children := n.children ++ [cfg.nodes.length] })) ++
        [⟨p, pyRjust p (index * cfg.indent), anc, []⟩] }

lemma addResolveGo_cons_found {ps : List String} {cfg : CustomNetworkConfig}
    {index : Nat} {p : String} {rest' : List String} {anc : List Nat}
    {l : List Nat}
    (hso : getSectionObjects cfg (.list (ps.take (index + 1))) = .ok l) :
    addResolveGo ps cfg index (p :: rest') anc =
      addResolveGo ps cfg (index + 1) rest' (anc ++ [l.headD 0]) := by
  rw [addResolveGo_cons, hso]

lemma addResolveGo_cons_err {ps : List String} {cfg : CustomNetworkConfig}
    {index : Nat} {p : String} {rest' : List String} {anc : List Nat}
    {e : String}
    (hso : getSectionObjects cfg (.list (ps.take (index + 1))) = .error e) :
    addResolveGo ps cfg index (p :: rest') anc =
      addResolveGo ps (createdCfg cfg index p anc) (index + 1) rest'
        (anc ++ [cfg.nodes.length]) := by
  rw [addResolveGo_cons, hso]
  rfl

lemma created_state_facts (ps : List String) (cfg : CustomNetworkConfig)
    (index : Nat) (p : String) (anc : List Nat)
    (hidx : index < ps.length) (hancl : anc.length = index)
    (hcl : closedArena cfg.nodes = true)
    (hanc : ∀ m, m < index → ancProps ps cfg anc m)
    (hp : ps.getD index "" = p)
    (hlook : getObjectL cfg (ps.take (index + 1)) = none) :
    ExtArena cfg.nodes (createdCfg cfg index p anc).nodes ∧
    closedArena (createdCfg cfg index p anc).nodes = true ∧
    (createdCfg cfg index p anc).indent = cfg.indent ∧
    (createdCfg cfg index p anc).nodes.length = cfg.nodes.length + 1 ∧
    ∀ m, m < index + 1 →
      ancProps ps (createdCfg cfg index p anc) (anc ++ [cfg.nodes.length]) m := by
  have hlen0 : (if anc.isEmpty then cfg.nodes
      else modifyAt cfg.nodes (anc.getLastD 0)
        (fun n => { n with children :=
          n.children ++ [cfg.nodes.length] })).length = cfg.nodes.length := by
    by_cases hae : anc.isEmpty
    · rw [if_pos hae]
    · rw [if_neg hae]
      exact modifyAt_length ..
  have hpres : ∀ i, i < cfg.nodes.length →
      (nthNode (if anc.isEmpty then cfg.nodes
        else modifyAt cfg.nodes (anc.getLastD 0)
          (fun n => { n with children :=
            n.children ++ [cfg.nodes.length] })) i).text =
        (nthNode cfg.nodes i).text ∧
      (nthNode (if anc.isEmpty then cfg.nodes
        else modifyAt cfg.nodes (anc.getLastD 0)
          (fun n => { n with children :=
            n.children ++ [cfg.nodes.length] })) i).parents =
        (nthNode cfg.nodes i).parents := by
    intro i hi
    by_cases hae : anc.isEmpty
    · rw [if_pos hae]
      exact ⟨rfl, rfl⟩
    · rw [if_neg hae]
      exact nthNode_modifyAt_fields cfg.nodes (anc.getLastD 0) i _
        (fun n => rfl) (fun n => rfl)
  have hlen2 : (createdCfg cfg index p anc).nodes.length =
      cfg.nodes.length + 1 := by
    show (_ ++ [_]).length = _
    rw [List.length_append, hlen0]
    rfl
  have hext : ExtArena cfg.nodes (createdCfg cfg index p anc).nodes := by
    refine ⟨by omega, fun i hi => ?_⟩
    show (nthNode (_ ++ [_]) i).text = _ ∧ (nthNode (_ ++ [_]) i).parents = _
    rw [nthNode_append_lt (by omega)]
    exact hpres i hi
  have hobjat : nthNode (createdCfg cfg index p anc).nodes cfg.nodes.length =
      ⟨p, pyRjust p (index * cfg.indent), anc, []⟩ := by
    show nthNode (_ ++ [_]) _ = _
    have := @nthNode_append_self
      (if anc.isEmpty then cfg.nodes
        else modifyAt cfg.nodes (anc.getLastD 0)
          (fun n => { n with children := n.children ++ [cfg.nodes.length] }))
      (⟨p, pyRjust p (index * cfg.indent), anc, []⟩ : ConfigLine)
    rw [hlen0] at this
    exact this
  have hancbound : ∀ q ∈ anc, q < cfg.nodes.length := by
    intro q hq
    obtain ⟨m, hm, hqd⟩ := mem_nat_list_getD hq
    rw [← hqd]
    exact (hanc m (by omega)).1
  have hclosed2 : closedArena (createdCfg cfg index p anc).nodes = true := by
    apply closedArena_iff.mpr
    intro i hi q hq
    rw [hlen2] at hi
    by_cases hilt : i < cfg.nodes.length
    · rw [(hext.2 i hilt).2] at hq
      have := closedArena_iff.mp hcl i hilt q hq
      omega
    · have hie : i = cfg.nodes.length := by omega
      subst hie
      rw [hobjat] at hq
      have := hancbound q hq
      omega
  have hchain2 : parentTexts (createdCfg cfg index p anc).nodes
      ⟨p, pyRjust p (index * cfg.indent), anc, []⟩ = ps.take index := by
    apply list_eq_of_getD_str
    · show (List.map _ anc).length = _
      rw [List.length_map, List.length_take]
      omega
    · intro k hk
      unfold parentTexts at hk
      rw [List.length_map] at hk
      have hk2 : k < anc.length := hk
      rw [parentTexts_getD hk]
      have hproj :
          (⟨p, pyRjust p (index * cfg.indent), anc, []⟩ :
            ConfigLine).parents = anc := rfl
      rw [hproj]
      have hklt : anc.getD k 0 < cfg.nodes.length :=
        (hanc k (by omega)).1
      rw [(hext.2 _ hklt).1]
      rw [(hanc k (by omega)).2.1]
      rw [take_getD_lt (by omega)]
  have hpropsIdx : ancProps ps (createdCfg cfg index p anc)
      (anc ++ [cfg.nodes.length]) index := by
    unfold ancProps
    have hgd : (anc ++ [cfg.nodes.length]).getD index 0 = cfg.nodes.length := by
      rw [← hancl]
      exact getD_append_self
    rw [hgd]
    refine ⟨by omega, ?_, ?_, ?_⟩
    · rw [hobjat, hp]
    · rw [hobjat]
      exact hchain2
    · apply getObjectL_eq_some_iff.mpr
      refine ⟨by omega, ?_, ?_⟩
      · unfold matchQ
        rw [hobjat]
        simp only [Bool.and_eq_true, beq_iff_eq]
        constructor
        · show p = _
          rw [take_getLastD hidx, hp]
        · rw [take_dropLast hidx]
          exact hchain2
      · intro m hm
        rw [matchQ_stable hcl hext hm]
        exact getObjectL_eq_none_iff.mp hlook m hm
  refine ⟨hext, hclosed2, rfl, hlen2, ?_⟩
  intro m hm
  by_cases hmi : m < index
  · exact ancProps_stable hcl hext
      (getD_append_lt (by omega)) (hanc m hmi)
  · have : m = index := by omega
    subst this
    exact hpropsIdx

/-- Invariant of the parent-resolution loop of `add`: starting from a closed
arena with correctly resolved ancestors for the first `index` prefixes, the
loop only extends the arena, and afterwards *every* prefix of the requested
parent chain resolves, by `get_object`, to the recorded ancestor. -/
lemma addResolveGo_spec (ps : List String) :
    ∀ (rest : List String) (index : Nat) (cfg : CustomNetworkConfig)
      (anc : List Nat),
      rest = ps.drop index →
      anc.length = index →
      closedArena cfg.nodes = true →
      (∀ m, m < index → ancProps ps cfg anc m) →
      closedArena (addResolveGo ps cfg index rest anc).1.nodes = true ∧
      ExtArena cfg.nodes (addResolveGo ps cfg index rest anc).1.nodes ∧
      (addResolveGo ps cfg index rest anc).1.indent = cfg.indent ∧
      (addResolveGo ps cfg index rest anc).2.length = index + rest.length ∧
      (∀ m, m < index →
        (addResolveGo ps cfg index rest anc).2.getD m 0 = anc.getD m 0) ∧
      (∀ m, m < index + rest.length →
        ancProps ps (addResolveGo ps cfg index rest anc).1
          (addResolveGo ps cfg index rest anc).2 m) := by
  intro rest
  induction rest with
  | nil =>
      intro index cfg anc hrest hancl hcl hanc
      refine ⟨hcl, extArena_refl _, rfl, by simpa using hancl,
        fun m hm => rfl, fun m hm => hanc m (by simpa using hm)⟩
  | cons p rest' IH =>
      intro index cfg anc hrest hancl hcl hanc
      have hidx : index < ps.length := by
        by_contra hcon
        rw [List.drop_eq_nil_of_le (by omega)] at hrest
        exact List.noConfusion hrest
      have hrest' : rest' = ps.drop (index + 1) := by
        have h1 : ps.drop (index + 1) = (ps.drop index).tail := by
          rw [← List.drop_drop 1 index ps, List.drop_one]
        rw [h1, ← hrest]
        rfl
      have hp : ps.getD index "" = p := by
        have h2 : ps[index]? = some p := by
          have h3 : (ps.drop index)[0]? = some p := by
            rw [← hrest]
            simp
          rw [List.getElem?_drop] at h3
          simpa using h3
        rw [List.getD_eq_getElem?_getD, h2]
        rfl
      cases hlook : getObjectL cfg (ps.take (index + 1)) with
      | some v =>
          obtain ⟨hso, hhead⟩ := getSectionObjects_of_some hlook
          rw [addResolveGo_cons_found hso, hhead]
          obtain ⟨hv, hmv, hbef⟩ := getObjectL_eq_some_iff.mp hlook
          have hmv' := hmv
          unfold matchQ at hmv'
          simp only [Bool.and_eq_true, beq_iff_eq] at hmv'
          obtain ⟨htxt, hchain⟩ := hmv'
          have hpropsIdx : ancProps ps cfg (anc ++ [v]) index := by
            unfold ancProps
            have hgd : (anc ++ [v]).getD index 0 = v := by
              rw [← hancl]
              exact getD_append_self
            rw [hgd]
            refine ⟨hv, ?_, ?_, hlook⟩
            · rw [htxt, take_getLastD hidx]
            · rw [hchain, take_dropLast hidx]
          have hanc2 : ∀ m, m < index + 1 →
              ancProps ps cfg (anc ++ [v]) m := by
            intro m hm
            by_cases hmi : m < index
            · exact ancProps_stable hcl (extArena_refl _)
                (getD_append_lt (by omega)) (hanc m hmi)
            · have hme : m = index := by omega
              subst hme
              exact hpropsIdx
          have hIH := IH (index + 1) cfg (anc ++ [v]) hrest'
            (by simp [hancl]) hcl hanc2
          obtain ⟨c1, c2, c3, c4, c5, c6⟩ := hIH
          refine ⟨c1, c2, c3, ?_, ?_, ?_⟩
          · rw [c4, List.length_cons]
            omega
          · intro m hm
            rw [c5 m (by omega), getD_append_lt (by omega)]
          · intro m hm
            rw [List.length_cons] at hm
            exact c6 m (by omega)
      | none =>
          have hso := getSectionObjects_of_none hlook
          rw [addResolveGo_cons_err hso]
          obtain ⟨hext, hcl2, hind2, hlen2, hanc2⟩ :=
            created_state_facts ps cfg index p anc hidx hancl hcl hanc
              hp hlook
          have hIH := IH (index + 1) (createdCfg cfg index p anc)
            (anc ++ [cfg.nodes.length]) hrest' (by simp [hancl]) hcl2 hanc2
          obtain ⟨c1, c2, c3, c4, c5, c6⟩ := hIH
          refine ⟨c1, extArena_trans hext c2, by rw [c3, hind2], ?_, ?_, ?_⟩
          · rw [c4, List.length_cons]
            omega
          · intro m hm
            rw [c5 m (by omega), getD_append_lt (by omega)]
          · intro m hm
            rw [List.length_cons] at hm
            exact c6 m (by omega)

/-- When every prefix of the parent chain already resolves to a recorded
ancestor, the resolution loop of `add` changes nothing and returns exactly
those ancestors. -/
lemma addResolveGo_found_run (ps : List String) (cfg : CustomNetworkConfig)
    (ancF : List Nat) (hlen : ancF.length = ps.length)
    (hfound : ∀ m, m < ps.length →
      getObjectL cfg (ps.take (m + 1)) = some (ancF.getD m 0)) :
    ∀ (rest : List String) (index : Nat),
      rest = ps.drop index → index ≤ ps.length →
      addResolveGo ps cfg index rest (ancF.take index) = (cfg, ancF) := by
  intro rest
  induction rest with
  | nil =>
      intro index hrest hle
      have h0 : (ps.drop index).length = 0 := by
        rw [← hrest]
        rfl
      rw [List.length_drop] at h0
      have hia : index = ps.length := by omega
      subst hia
      show (cfg, ancF.take ps.length) = (cfg, ancF)
      rw [← hlen, List.take_length]
  | cons p rest' IH =>
      intro index hrest hle
      have hidx : index < ps.length := by
        by_contra hcon
        rw [List.drop_eq_nil_of_le (by omega)] at hrest
        exact List.noConfusion hrest
      have hrest' : rest' = ps.drop (index + 1) := by
        have h1 : ps.drop (index + 1) = (ps.drop index).tail := by
          rw [← List.drop_drop 1 index ps, List.drop_one]
        rw [h1, ← hrest]
        rfl
      have hso := (getSectionObjects_of_some (hfound index hidx)).1
      have hhead := (getSectionObjects_of_some (hfound index hidx)).2
      rw [addResolveGo_cons_found hso, hhead]
      have hial : index < ancF.length := by omega
      have htake : ancF.take index ++ [ancF.getD index 0] =
          ancF.take (index + 1) := by
        rw [List.take_succ]
        congr 1
        rw [List.getElem?_eq_getElem hial]
        rw [List.getD_eq_getElem?_getD, List.getElem?_eq_getElem hial]
        rfl
      rw [htake]
      exact IH (index + 1) hrest' (by omega)

lemma nthNode_modifyAt_self {l : List ConfigLine} {a : Nat}
    (h : a < l.length) (f : ConfigLine → ConfigLine) :
    nthNode (modifyAt l a f) a = f (nthNode l a) := by
  unfold modifyAt nthNode
  rw [List.getD_eq_getElem?_getD, List.getElem?_set_self h]
  rfl

lemma extArena_modifyAt_append (ns : List ConfigLine) (a : Nat)
    (cs : List Nat) (x : ConfigLine) :
    ExtArena ns
      (modifyAt ns a (fun n => { n with children := n.children ++ cs }) ++
        [x]) := by
  constructor
  · rw [List.length_append, modifyAt_length]
    omega
  · intro i hi
    rw [nthNode_append_lt (by rw [modifyAt_length]; omega)]
    exact nthNode_modifyAt_fields ns a i _ (fun n => rfl) (fun n => rfl)

lemma addImpl_nil_parents (cfg : CustomNetworkConfig) (l : String) :
    addImpl cfg [l] [] =
      (if cfg.nodes.any (fun e => e.text == l && e.parents.isEmpty) then cfg
       else { cfg with nodes := cfg.nodes ++ [⟨l, l, [], []⟩] }) := rfl

lemma addImpl_cons_parents (cfg : CustomNetworkConfig) (lines : List String)
    (ps : List String) (h : ps.isEmpty = false) :
    addImpl cfg lines ps =
      addChildren (addResolveGo ps cfg 0 ps []).1
        (addResolveGo ps cfg 0 ps []).2 ps lines := by
  unfold addImpl
  rw [if_neg (by simp [h])]

lemma addChildren_single (cfg : CustomNetworkConfig) (anc : List Nat)
    (ps : List String) (l : String) :
    addChildren cfg anc ps [l] =
      (if (nthNode cfg.nodes (anc.getLastD 0)).children.any
          (fun c => (nthNode cfg.nodes c).text == l) then cfg
       else { cfg with
              nodes := modifyAt cfg.nodes (anc.getLastD 0)
                  (fun n =>
                    { n with children := n.children ++ [cfg.nodes.length] }) ++
                [⟨l, pyRjust l (ps.length * cfg.indent), anc, []⟩] }) := rfl

/-- C6: `add` is idempotent.  On any reference-closed tree (every Python
heap is), adding the same line under the same parent chain twice returns a
tree identical to adding it once: the second call resolves the same
ancestors, finds the child (or top-level node) already present, and appends
nothing — one node, not two. -/
theorem add_idempotent (cfg : CustomNetworkConfig) (l : String)
    (ps : List String) (hcl : closedArena cfg.nodes = true) :
    addImpl (addImpl cfg [l] ps) [l] ps = addImpl cfg [l] ps := by
  by_cases hps : ps.isEmpty = true
  · have hnil : ps = [] := by
      cases ps with
      | nil => rfl
      | cons a as => simp at hps
    subst hnil
    by_cases h : cfg.nodes.any (fun e => e.text == l && e.parents.isEmpty) =
        true
    · have h1 : addImpl cfg [l] [] = cfg := by
        rw [addImpl_nil_parents, if_pos h]
      rw [h1]
      exact h1
    · have h1 : addImpl cfg [l] [] =
          { cfg with nodes := cfg.nodes ++ [⟨l, l, [], []⟩] } := by
        rw [addImpl_nil_parents, if_neg h]
      rw [h1]
      have h2 : ({ cfg with nodes := cfg.nodes ++ [⟨l, l, [], []⟩] } :
          CustomNetworkConfig).nodes.any
            (fun e => e.text == l && e.parents.isEmpty) = true := by
        simp
      rw [addImpl_nil_parents, if_pos h2]
  · have hpsf : ps.isEmpty = false := by simpa using hps
    have hne : ps ≠ [] := by
      intro hcon
      subst hcon
      simp at hpsf
    have hlenpos : 0 < ps.length := List.length_pos.mpr hne
    obtain ⟨r1, r2, r3, r4, r5, r6⟩ :=
      addResolveGo_spec ps ps 0 cfg [] rfl rfl hcl
        (fun m hm => absurd hm (Nat.not_lt_zero m))
    set res := addResolveGo ps cfg 0 ps [] with hresdef
    have hlenanc : res.2.length = ps.length := by simpa using r4
    have hlastP := r6 (ps.length - 1) (by omega)
    have hlast_eq : res.2.getLastD 0 = res.2.getD (ps.length - 1) 0 := by
      rw [List.getLastD_eq_getLast?, List.getLast?_eq_getElem?, hlenanc,
        List.getD_eq_getElem?_getD]
    have hfirst : addImpl cfg [l] ps = addChildren res.1 res.2 ps [l] :=
      addImpl_cons_parents cfg [l] ps hpsf
    by_cases hch : (nthNode res.1.nodes (res.2.getLastD 0)).children.any
        (fun c => (nthNode res.1.nodes c).text == l) = true
    · have hc1 : addChildren res.1 res.2 ps [l] = res.1 := by
        rw [addChildren_single, if_pos hch]
      have hrun : addResolveGo ps res.1 0 ps [] = (res.1, res.2) := by
        have := addResolveGo_found_run ps res.1 res.2 hlenanc
          (fun m hm => (r6 m (by omega)).2.2.2) ps 0 rfl (by omega)
        simpa using this
      rw [hfirst, hc1, addImpl_cons_parents res.1 [l] ps hpsf, hrun]
      exact hc1
    · have hlastlt : res.2.getLastD 0 < res.1.nodes.length := by
        rw [hlast_eq]
        exact hlastP.1
      have hc1 : addChildren res.1 res.2 ps [l] =
          { res.1 with
            nodes := modifyAt res.1.nodes (res.2.getLastD 0)
                (fun n =>
                  { n with children := n.children ++ [res.1.nodes.length] }) ++
              [⟨l, pyRjust l (ps.length * res.1.indent), res.2, []⟩] } := by
        rw [addChildren_single, if_neg hch]
      set cfg2 : CustomNetworkConfig :=
        { res.1 with
          nodes := modifyAt res.1.nodes (res.2.getLastD 0)
              (fun n =>
                { n with children := n.children ++ [res.1.nodes.length] }) ++
            [⟨l, pyRjust l (ps.length * res.1.indent), res.2, []⟩] }
        with hcfg2def
      have hext2 : ExtArena res.1.nodes cfg2.nodes :=
        extArena_modifyAt_append res.1.nodes (res.2.getLastD 0)
          [res.1.nodes.length]
          ⟨l, pyRjust l (ps.length * res.1.indent), res.2, []⟩
      have hfound2 : ∀ m, m < ps.length →
          getObjectL cfg2 (ps.take (m + 1)) = some (res.2.getD m 0) :=
        fun m hm => getObjectL_stable r1 hext2 ((r6 m (by omega)).2.2.2)
      have hrun : addResolveGo ps cfg2 0 ps [] = (cfg2, res.2) := by
        have := addResolveGo_found_run ps cfg2 res.2 hlenanc hfound2 ps 0 rfl
          (by omega)
        simpa using this
      have hnodeA : nthNode cfg2.nodes (res.2.getLastD 0) =
          { nthNode res.1.nodes (res.2.getLastD 0) with
            children := (nthNode res.1.nodes (res.2.getLastD 0)).children ++
              [res.1.nodes.length] } := by
        show nthNode (_ ++ [_]) _ = _
        rw [nthNode_append_lt (by rw [modifyAt_length]; omega)]
        exact nthNode_modifyAt_self hlastlt _
      have hw2node : nthNode cfg2.nodes res.1.nodes.length =
          ⟨l, pyRjust l (ps.length * res.1.indent), res.2, []⟩ := by
        show nthNode (_ ++ [_]) _ = _
        have := @nthNode_append_self
          (modifyAt res.1.nodes (res.2.getLastD 0)
            (fun n =>
              { n with children := n.children ++ [res.1.nodes.length] }))
          (⟨l, pyRjust l (ps.length * res.1.indent), res.2, []⟩ :
            ConfigLine)
        rw [modifyAt_length] at this
        exact this
      have hch2 : (nthNode cfg2.nodes (res.2.getLastD 0)).children.any
          (fun c => (nthNode cfg2.nodes c).text == l) = true := by
        rw [hnodeA]
        show ((nthNode res.1.nodes (res.2.getLastD 0)).children ++
          [res.1.nodes.length]).any _ = true
        rw [List.any_append]
        apply Bool.or_eq_true_iff.mpr
        right
        show ((nthNode cfg2.nodes res.1.nodes.length).text == l || false) =
          true
        rw [hw2node]
        simp
      rw [hfirst, hc1, addImpl_cons_parents cfg2 [l] ps hpsf, hrun]
      show addChildren cfg2 res.2 ps [l] = cfg2
      rw [addChildren_single, if_pos hch2]

/-- C6 witness: adding a new entry twice under the parsed ACL's parent chain
leaves the tree of the first add unchanged. -/
theorem add_idempotent_witness :
    closedArena candidateTree.nodes = true ∧
    addImpl (addImpl candidateTree ["20 deny ip any any"]
        ["ip access-list ANSIBLE"]) ["20 deny ip any any"]
        ["ip access-list ANSIBLE"] =
      addImpl candidateTree ["20 deny ip any any"]
        ["ip access-list ANSIBLE"] :=
  ⟨by decide,
   add_idempotent candidateTree "20 deny ip any any"
     ["ip access-list ANSIBLE"] (by decide)⟩
